import Mathlib

/-!
Verification of the CodeSnap task lifecycle manager
(`src/codesnap/task.py`, `src/codesnap/git.py`, `src/codesnap/models.py`).

The embedding models the git adapter symbolically: the repository state keeps
the branch list, the checked-out branch, the working-tree status text and the
abbreviated head commit hash.  Every state-mutating git command is fallible:
it consumes one entry of an outcome oracle, a list of (success, output)
pairs, so theorems quantify over every adapter success/failure outcome.
Timestamps are modelled as integers (seconds); the source stores them as
strings in the fixed format "%Y-%m-%d %H:%M:%S", which strptime/strftime
convert bijectively to and from points in time, so the integer model is
faithful.  Registry load/save (tasks.json) is modelled as a list of task
records held in the world state, matching the load-all/mutate/save-all
pattern of `_load_tasks`/`_save_tasks`.

Manager-level operations return `Except String (result × World)`: the
`.error` channel stands for a Python exception escaping the lifecycle
manager boundary; the code under analysis is translated so that an uncaught
exception would surface there.
-/

/-- A single quote character, used to build the user-facing messages of the
source (for example the default merge message) without bare quote literals. -/
def sqs : String := String.singleton (Char.ofNat 39)

/-- Wrap a string in single quotes, as the f-strings of the source do. -/
def q (s : String) : String := sqs ++ s ++ sqs

/-- Whether the first character list is an initial segment of the second. -/
def listIsPre : List Char → List Char → Bool
  | [], _ => true
  | _ :: _, [] => false
  | a :: as, b :: bs => a == b && listIsPre as bs

/-- Whether the first character list occurs inside the second. -/
def listHasSub (pat : List Char) : List Char → Bool
  | [] => pat.isEmpty
  | c :: rest => listIsPre pat (c :: rest) || listHasSub pat rest

/-- Python substring test `pat in s`: true iff `pat` occurs in `s`. -/
def strContains (s pat : String) : Bool := listHasSub pat.data s.data

/-- The fixed task-branch prefix `task_prefix = "codesnap@task/"` shared by
`TaskManager` and `ConfigOptions`. -/
def taskPref : String := "codesnap@task/"

/-- One git invocation, recorded in the trace so that theorems can speak
about which adapter calls an operation performed, in which order. -/
inductive Call where
  | checkout (b : String)
  | createBranch (b : String)
  | mergeSquash (b : String)
  | commit (m : String)
  | mergeFF (b : String)
  | deleteBranch (b : String)
  | mergeNoCommit (b : String)
  | mergeAbort
  | mergeWithCommit (b : String) (m : String)
  | resetHard
  | clean
deriving Repr, DecidableEq

/-- The state of the working repository visible through the adapter:
whether the directory is a git repository, the local branches, the
checked-out branch (none models detached HEAD / errors), the porcelain
status text ("" = clean) and the abbreviated hash of the head commit. -/
structure GitState where
  isRepo : Bool
  branches : List String
  current : Option String
  changes : String
  headShort : String
deriving Repr, DecidableEq

/-- One registry record, as serialized in tasks.json (`models.Task`);
`status` is the plain string stored in the JSON dictionaries, timestamps are
modelled as integers (see the header comment). -/
structure TaskRec where
  id : Int
  name : String
  branch : String
  base_branch : String
  description : String
  status : String
  created : Int
  last_activity : Int
  commits : Int
deriving Repr, DecidableEq

/-- The whole world a lifecycle operation acts on: repository state, the
outcome oracle for fallible git commands, the registry contents, the current
time (`datetime.now()`), and the trace of git calls made so far. -/
structure World where
  git : GitState
  oracle : List (Bool × String)
  tasks : List TaskRec
  now : Int
  trace : List Call
deriving Repr, DecidableEq

/-- Pop the next adapter outcome; an exhausted oracle yields failure. -/
def takeOracle (w : World) : (Bool × String) × World :=
  match w.oracle with
  | [] => ((false, ""), w)
  | e :: rest => (e, { w with oracle := rest })

/-- Record a git invocation in the trace. -/
def logCall (c : Call) (w : World) : World :=
  { w with trace := w.trace ++ [c] }

/-- Raw `repo.git.checkout(b)`: raises (`some error`) or moves HEAD to `b`. -/
def rawCheckout (b : String) (w : World) : Option String × World :=
  let w1 := logCall (Call.checkout b) w
  match takeOracle w1 with
  | ((true, _), w2) => (none, { w2 with git := { w2.git with current := some b } })
  | ((false, msg), w2) => (some msg, w2)

/-- Raw `repo.git.checkout(b=name)`: on success creates branch `b` (if new)
and moves HEAD to it. -/
def rawCreateBranch (b : String) (w : World) : Option String × World :=
  let w1 := logCall (Call.createBranch b) w
  match takeOracle w1 with
  | ((true, _), w2) =>
    (none, { w2 with git := { w2.git with
      branches := (if w2.git.branches.contains b then w2.git.branches else w2.git.branches ++ [b])
      current := some b } })
  | ((false, msg), w2) => (some msg, w2)

/-- Raw `repo.git.merge("--squash", b)`: stages the squashed changes in the
working tree; no branch or HEAD movement. -/
def rawMergeSquash (b : String) (w : World) : Option String × World :=
  let w1 := logCall (Call.mergeSquash b) w
  match takeOracle w1 with
  | ((true, _), w2) => (none, w2)
  | ((false, msg), w2) => (some msg, w2)

/-- Raw `repo.git.commit(m=msg)`: on success creates a commit; the oracle
output stands for the new abbreviated head hash. -/
def rawCommit (m : String) (w : World) : Option String × World :=
  let w1 := logCall (Call.commit m) w
  match takeOracle w1 with
  | ((true, out), w2) => (none, { w2 with git := { w2.git with headShort := out } })
  | ((false, msg), w2) => (some msg, w2)

/-- Raw `repo.git.merge(b)` (fast-forward merge of the temporary branch). -/
def rawMergeFF (b : String) (w : World) : Option String × World :=
  let w1 := logCall (Call.mergeFF b) w
  match takeOracle w1 with
  | ((true, _), w2) => (none, w2)
  | ((false, msg), w2) => (some msg, w2)

/-- Raw `repo.git.branch(D=b)`: on success deletes branch `b`. -/
def rawDeleteBranch (b : String) (w : World) : Option String × World :=
  let w1 := logCall (Call.deleteBranch b) w
  match takeOracle w1 with
  | ((true, _), w2) => (none, { w2 with git := { w2.git with branches := w2.git.branches.erase b } })
  | ((false, msg), w2) => (some msg, w2)

/-- Raw `repo.git.reset("--hard", "HEAD")`: on success the tree is clean. -/
def rawResetHard (w : World) : Option String × World :=
  let w1 := logCall Call.resetHard w
  match takeOracle w1 with
  | ((true, _), w2) => (none, { w2 with git := { w2.git with changes := "" } })
  | ((false, msg), w2) => (some msg, w2)

/-- Raw `repo.git.clean("-fd")`. -/
def rawClean (w : World) : Option String × World :=
  let w1 := logCall Call.clean w
  match takeOracle w1 with
  | ((true, _), w2) => (none, w2)
  | ((false, msg), w2) => (some msg, w2)

/-- `GitOps.is_git_repo`. -/
def is_git_repo (w : World) : Bool := w.git.isRepo

/-- `GitOps.get_current_branch`: none outside a repository or on errors. -/
def get_current_branch (w : World) : Option String :=
  if w.git.isRepo then w.git.current else none

/-- `GitOps.get_changes`: porcelain status, "" outside a repository. -/
def get_changes (w : World) : String :=
  if w.git.isRepo then w.git.changes else ""

/-- `GitOps.get_main_branch`: the first of master, main that exists. -/
def get_main_branch (w : World) : Option String :=
  if w.git.isRepo = false then none
  else if w.git.branches.contains ("master") then some ("master")
  else if w.git.branches.contains ("main") then some ("main")
  else none

/-- `GitOps.checkout_branch`. -/
def checkout_branch (b : String) (w : World) : (Bool × String) × World :=
  if w.git.isRepo = false then ((false, "Not a git repository"), w)
  else
    match rawCheckout b w with
    | (none, w1) => ((true, "Switched to branch " ++ q b), w1)
    | (some e, w1) => ((false, e), w1)

/-- `GitOps.create_branch`. -/
def create_branch (b : String) (w : World) : (Bool × String) × World :=
  if w.git.isRepo = false then ((false, "Not a git repository"), w)
  else
    match rawCreateBranch b w with
    | (none, w1) => ((true, "Switched to a new branch " ++ q b), w1)
    | (some e, w1) => ((false, e), w1)

/-- `GitOps.delete_branch`. -/
def delete_branch (b : String) (w : World) : (Bool × String) × World :=
  if w.git.isRepo = false then ((false, "Not a git repository"), w)
  else
    match rawDeleteBranch b w with
    | (none, w1) => ((true, "Deleted branch " ++ b), w1)
    | (some e, w1) => ((false, e), w1)

/-- `GitOps.abort_changes`: reset hard and clean, only on a task branch. -/
def abort_changes (w : World) : (Bool × String) × World :=
  if w.git.isRepo = false then ((false, "Not a git repository"), w)
  else
    match get_current_branch w with
    | none => ((false, "Not on a task branch"), w)
    | some cur =>
      if cur = "" then ((false, "Not on a task branch"), w)
      else if strContains cur taskPref = false then ((false, "Not on a task branch"), w)
      else
        match rawResetHard w with
        | (some e, w1) => ((false, e), w1)
        | (none, w1) =>
          match rawClean w1 with
          | (some e, w2) => ((false, e), w2)
          | (none, w2) => ((true, "All changes have been abandoned"), w2)

/-- The except-handler of `GitOps.squash_commits`: best-effort checkout of the
original branch, then deletion of the temporary branch if it exists; when the
compensating checkout itself raises, the deletion is skipped (the inner
`except: pass` aborts the whole cleanup block); the first error is returned. -/
def squashCleanup (curB temp err : String) (w : World) : (Bool × String) × World :=
  match rawCheckout curB w with
  | (some _, w1) => ((false, err), w1)
  | (none, w1) =>
    if w1.git.branches.contains temp then
      match rawDeleteBranch temp w1 with
      | (_, w2) => ((false, err), w2)
    else ((false, err), w1)

/-- `GitOps.squash_commits`: checkout the main branch, create a timestamped
temporary branch, squash-merge the current branch, commit, checkout the main
branch again, merge the temporary branch, delete it; on any raised step run
`squashCleanup`. -/
def squash_commits (message : String) (w : World) : (Bool × String) × World :=
  if w.git.isRepo = false then ((false, "Not a git repository"), w)
  else
    match get_main_branch w with
    | none => ((false, "Unable to determine branches"), w)
    | some mainB =>
      match get_current_branch w with
      | none => ((false, "Unable to determine branches"), w)
      | some curB =>
        if curB = "" then ((false, "Unable to determine branches"), w)
        else
          let temp := "temp-" ++ toString w.now
          match rawCheckout mainB w with
          | (some e, w1) => squashCleanup curB temp e w1
          | (none, w1) =>
            match rawCreateBranch temp w1 with
            | (some e, w2) => squashCleanup curB temp e w2
            | (none, w2) =>
              match rawMergeSquash curB w2 with
              | (some e, w3) => squashCleanup curB temp e w3
              | (none, w3) =>
                match rawCommit message w3 with
                | (some e, w4) => squashCleanup curB temp e w4
                | (none, w4) =>
                  let h := w4.git.headShort
                  match rawCheckout mainB w4 with
                  | (some e, w5) => squashCleanup curB temp e w5
                  | (none, w5) =>
                    match rawMergeFF temp w5 with
                    | (some e, w6) => squashCleanup curB temp e w6
                    | (none, w6) =>
                      match rawDeleteBranch temp w6 with
                      | (some e, w7) => squashCleanup curB temp e w7
                      | (none, w7) =>
                        ((true, "[" ++ mainB ++ " " ++ h ++ "] " ++ message), w7)

/-- Modelled from the spec: `GitOps._run_command` is called by
`TaskManager` but not defined under src/; applied to
`git rev-parse --verify <branch>` it is the adapter contract's
`branchExists(name) -> bool` query: it succeeds exactly when the branch
exists, with no side effect. -/
def run_rev_parse_verify (b : String) (w : World) : (Bool × String) × World :=
  ((w.git.isRepo && w.git.branches.contains b, ""), w)

/-- Modelled from the spec: `GitOps._run_command` applied to
`git merge --no-commit --no-ff <branch>` is the adapter contract's
`mergeNoCommit(branch) -> (ok, msg)`: a fallible working-tree merge that
creates no commit and moves no branch. -/
def run_merge_no_commit (b : String) (w : World) : (Bool × String) × World :=
  if w.git.isRepo = false then ((false, "Not a git repository"), w)
  else
    let w1 := logCall (Call.mergeNoCommit b) w
    takeOracle w1

/-- Modelled from the spec: `GitOps._run_command` applied to
`git merge --abort` is the adapter contract's `abortMerge()`: it cancels the
in-progress merge; its result is ignored by the caller. -/
def run_merge_abort (w : World) : (Bool × String) × World :=
  if w.git.isRepo = false then ((false, "Not a git repository"), w)
  else
    let w1 := logCall Call.mergeAbort w
    takeOracle w1

/-- Modelled from the spec: `GitOps._run_command` applied to
`git merge --no-ff <branch> -m <message>` is the adapter contract's
`mergeWithCommit(branch, message) -> (ok, msg)`: on success a merge commit is
created on the checked-out branch (the oracle output stands for the new
abbreviated head hash); no HEAD movement. -/
def run_merge_with_commit (b m : String) (w : World) : (Bool × String) × World :=
  if w.git.isRepo = false then ((false, "Not a git repository"), w)
  else
    let w1 := logCall (Call.mergeWithCommit b m) w
    match takeOracle w1 with
    | ((true, out), w2) => ((true, out), { w2 with git := { w2.git with headShort := out } })
    | ((false, msg), w2) => ((false, msg), w2)

/-- `TaskManager._get_next_id`, nonempty case: the maximum existing id. -/
def maxId : List TaskRec → Int
  | [] => 0
  | [t] => t.id
  | t :: ts => max t.id (maxId ts)

/-- `TaskManager._get_next_id`: 1 when the registry is empty, otherwise the
maximum existing id plus one. -/
def nextId (ts : List TaskRec) : Int :=
  match ts with
  | [] => 1
  | _ => maxId ts + 1

/-- Python truthiness of an optional string: both None and "" are falsy. -/
def truthyOpt : Option String → Option String
  | none => none
  | some s => if s = "" then none else some s

/-- The loop of `TaskManager.update_task_status`: update status,
last-activity and (optionally) the commit counter of the first record whose
name matches, leaving every other record untouched. -/
def updateFirst (name status : String) (inc : Bool) (now : Int) :
    List TaskRec → List TaskRec × Bool
  | [] => ([], false)
  | t :: ts =>
    if t.name == name then
      ({ t with
         status := status
         last_activity := now
         commits := (if inc then t.commits + 1 else t.commits) } :: ts, true)
    else
      match updateFirst name status inc now ts with
      | (ts', u) => (t :: ts', u)

/-- `TaskManager.update_task_status`: the registry is saved only when a
record was updated. -/
def update_task_status (name status : String) (inc : Bool) (w : World) : Bool × World :=
  let p := updateFirst name status inc w.now w.tasks
  (p.2, { w with tasks := if p.2 then p.1 else w.tasks })

/-- `TaskManager.get_current_task`: the first registry record whose branch is
the checked-out branch, provided that branch contains the task prefix. -/
def get_current_task (w : World) : Option TaskRec :=
  match get_current_branch w with
  | none => none
  | some cur =>
    if cur = "" then none
    else if strContains cur taskPref = false then none
    else w.tasks.find? (fun t => t.branch == cur)

/-- Python str() of an optional branch name, as the f-strings of the source
render it ("None" for a missing branch). -/
def curBranchStr (w : World) : String :=
  match get_current_branch w with
  | some c => c
  | none => "None"

/-- `TaskManager.create_task`. -/
def create_task (task_name description : String) (force : Bool) (base : Option String)
    (w : World) : Except String ((Bool × String) × World) :=
  if is_git_repo w = false then Except.ok ((false, "Not in a Git repository"), w)
  else if force = false ∧ ¬ (get_changes w = "") then
    Except.ok ((false, "You have uncommitted changes. Use --force to proceed anyway"), w)
  else
    match (match truthyOpt base with
           | some b => some b
           | none => truthyOpt (get_current_branch w)) with
    | none => Except.ok ((false, "Unable to determine current branch"), w)
    | some baseB =>
      let vr := run_rev_parse_verify baseB w
      let w1 := vr.2
      if vr.1.1 = false then
        Except.ok ((false, "Base branch " ++ q baseB ++ " does not exist"), w1)
      else
          let branch_name := taskPref ++ task_name
          match checkout_branch baseB w1 with
          | ((false, out), w2) =>
            Except.ok ((false, "Failed to checkout base branch: " ++ out), w2)
          | ((true, _), w2) =>
            match create_branch branch_name w2 with
            | ((false, out), w3) =>
              Except.ok ((false, "Failed to create task branch: " ++ out), w3)
            | ((true, _), w3) =>
              let tid := nextId w3.tasks
              let newTask : TaskRec :=
                ⟨tid, task_name, branch_name, baseB, description, "Active", w3.now, w3.now, 0⟩
              Except.ok ((true, "Created task branch " ++ q branch_name ++
                  "\nDescription: " ++ (if description = "" then "None" else description) ++
                  "\nCreated: " ++ toString w3.now),
                { w3 with tasks := w3.tasks ++ [newTask] })

/-- `TaskManager.apply_changes`: no-commit, no-fast-forward merge of the task
branch into its base branch; on conflict abort the merge and go back. -/
def apply_changes (return_to_task : Bool) (w : World) : Except String ((Bool × String) × World) :=
  match get_current_task w with
  | none => Except.ok ((false, "Not on a task branch"), w)
  | some task =>
    let baseB := task.base_branch
    let curB := curBranchStr w
    match checkout_branch baseB w with
    | ((false, out), w1) =>
      Except.ok ((false, "Failed to checkout base branch: " ++ out), w1)
    | ((true, _), w1) =>
      match run_merge_no_commit curB w1 with
      | ((false, out), w2) =>
        let w3 := (run_merge_abort w2).2
        let w4 := (checkout_branch curB w3).2
        Except.ok ((false, "Failed to merge changes: " ++ out), w4)
      | ((true, _), w2) =>
        if return_to_task then
          let w3 := (checkout_branch curB w2).2
          Except.ok ((true, "Applied changes from " ++ q curB ++ " to " ++ q baseB ++
            " (not committed)"), w3)
        else
          Except.ok ((true, "Applied changes from " ++ q curB ++ " to " ++ q baseB ++
            " (not committed) and stayed on " ++ baseB), w2)

/-- The default commit message of the merge paths: the supplied message when
truthy, otherwise Merge task <name> in quotes (`message or f-string` in the
source). -/
def mergeMsgOf (m : Option String) (t : TaskRec) : String :=
  match truthyOpt m with
  | some x => x
  | none => "Merge task " ++ q t.name

/-- `TaskManager.merge_changes`: squash integrate, commit integrate, or
apply-without-commit staying on the base branch. -/
def merge_changes (commit : Bool) (message : Option String) (squash : Bool)
    (w : World) : Except String ((Bool × String) × World) :=
  match get_current_task w with
  | none => Except.ok ((false, "Not on a task branch"), w)
  | some task =>
    let baseB := task.base_branch
    let curB := curBranchStr w
    if squash then
      let msg := mergeMsgOf message task
      match squash_commits msg w with
      | ((true, _), w1) =>
        let w2 := (update_task_status task.name ("Merged") false w1).2
        let w3 := (checkout_branch baseB w2).2
        Except.ok ((true, "Squashed and merged " ++ q curB ++ " into " ++ q baseB ++
          " and switched to " ++ baseB), w3)
      | ((false, result), w1) => Except.ok ((false, result), w1)
    else if commit then
      match checkout_branch baseB w with
      | ((false, out), w1) =>
        Except.ok ((false, "Failed to checkout base branch: " ++ out), w1)
      | ((true, _), w1) =>
        let mmsg := mergeMsgOf message task
        match run_merge_with_commit curB mmsg w1 with
        | ((true, _), w2) =>
          let w3 := (update_task_status task.name ("Merged") false w2).2
          Except.ok ((true, "Merged " ++ q curB ++ " into " ++ q baseB ++
            " and stayed on " ++ baseB), w3)
        | ((false, out), w2) =>
          let w3 := (checkout_branch curB w2).2
          Except.ok ((false, "Failed to merge: " ++ out), w3)
    else
      apply_changes false w

/-- `TaskManager.abort_task`. -/
def abort_task (delete_br : Bool) (w : World) : Except String ((Bool × String) × World) :=
  match get_current_task w with
  | none => Except.ok ((false, "Not on a task branch"), w)
  | some task =>
    let task_name := task.name
    let baseB := task.base_branch
    let task_branch := task.branch
    match abort_changes w with
    | ((false, msg), w1) => Except.ok ((false, msg), w1)
    | ((true, _), w1) =>
      match checkout_branch baseB w1 with
      | ((false, out), w2) =>
        Except.ok ((false, "Failed to switch back to " ++ baseB ++ ": " ++ out), w2)
      | ((true, _), w2) =>
        let w3 := (update_task_status task_name ("Aborted") false w2).2
        if delete_br then
          match delete_branch task_branch w3 with
          | ((true, _), w4) =>
            Except.ok ((true, "Abandoned and deleted task " ++ q task_name),
              { w4 with tasks := w4.tasks.filter (fun t => ¬ (t.branch == task_branch)) })
          | ((false, out), w4) =>
            Except.ok ((false, "Failed to delete branch: " ++ out), w4)
        else
          Except.ok ((true, "Abandoned all changes in task " ++ q task_name ++
            " and switched to " ++ baseB), w3)

/-- Python `task["branch"] == current_branch` where the right side may be
None: False when there is no current branch. -/
def someEqStr (b : String) (cur : Option String) : Bool :=
  match cur with
  | some c => b == c
  | none => false

/-- `timedelta.days` of `current_time - last_activity` with timestamps in
seconds: floor division by one day of seconds. -/
def daysBetween (now last : Int) : Int := (now - last).fdiv 86400

/-- The scan loop of `TaskManager.prune_tasks`: collect the records whose
branch was actually deleted (skipping the checked-out branch, the too-recent
records, the non-merged ones under the filter, and the branches that no
longer exist). -/
def pruneLoop (days : Int) (merged_only : Bool) (cur : Option String) (now : Int) :
    List TaskRec → World → List TaskRec × World
  | [], w => ([], w)
  | t :: ts, w =>
    if someEqStr t.branch cur then pruneLoop days merged_only cur now ts w
    else if daysBetween now t.last_activity ≥ days then
      if merged_only = true ∧ ¬ (t.status = "Merged") then
        pruneLoop days merged_only cur now ts w
      else
        let vr := run_rev_parse_verify t.branch w
        if vr.1.1 then
          match delete_branch t.branch vr.2 with
          | ((true, _), w2) =>
            let pr := pruneLoop days merged_only cur now ts w2
            (t :: pr.1, pr.2)
          | ((false, _), w2) => pruneLoop days merged_only cur now ts w2
        else pruneLoop days merged_only cur now ts vr.2
    else pruneLoop days merged_only cur now ts w

/-- `TaskManager.prune_tasks`: scan, then drop in one write every record
equal (as a whole) to a deleted one, and return how many were collected. -/
def prune_tasks (days : Int) (merged_only : Bool) (w : World) : Except String (Nat × World) :=
  if is_git_repo w = false then Except.ok (0, w)
  else
    let cur := get_current_branch w
    let pr := pruneLoop days merged_only cur w.now w.tasks w
    if pr.1 = [] then Except.ok (0, pr.2)
    else
      Except.ok (pr.1.length,
        { pr.2 with tasks := pr.2.tasks.filter (fun t => ¬ pr.1.contains t) })

/-! ### Totality of the manager boundary -/

theorem create_total (n d : String) (f : Bool) (b : Option String) (w : World) :
    ∃ v, create_task n d f b w = Except.ok v := by
  unfold create_task
  repeat' first
  | exact ⟨_, rfl⟩
  | split
  | dsimp only

theorem apply_total (rtt : Bool) (w : World) :
    ∃ v, apply_changes rtt w = Except.ok v := by
  unfold apply_changes
  repeat' first
  | exact ⟨_, rfl⟩
  | split
  | dsimp only

theorem merge_total (c : Bool) (m : Option String) (s : Bool) (w : World) :
    ∃ v, merge_changes c m s w = Except.ok v := by
  unfold merge_changes
  repeat' first
  | exact ⟨_, rfl⟩
  | exact apply_total false _
  | split
  | dsimp only

theorem abort_total (del : Bool) (w : World) :
    ∃ v, abort_task del w = Except.ok v := by
  unfold abort_task
  repeat' first
  | exact ⟨_, rfl⟩
  | split
  | dsimp only

theorem prune_total (days : Int) (mo : Bool) (w : World) :
    ∃ v, prune_tasks days mo w = Except.ok v := by
  unfold prune_tasks
  repeat' first
  | exact ⟨_, rfl⟩
  | split
  | dsimp only

/-- Claim C1: every public lifecycle operation (create, apply-without-commit,
merge in all three strategies, abort, prune) is total over its precondition
space: for every input world — hence for every adapter success/failure
outcome recorded in the oracle — it returns an ordinary (success, message)
result (a count for prune) through the `Except.ok` channel, and the
`Except.error` channel modelling an exception escaping the lifecycle manager
boundary is never used. -/
theorem claim_C1 (w : World) (n d : String) (f : Bool) (b : Option String)
    (rtt : Bool) (c : Bool) (m : Option String) (s : Bool) (del : Bool)
    (days : Int) (mo : Bool) :
    (∃ v, create_task n d f b w = Except.ok v) ∧
    (∃ v, apply_changes rtt w = Except.ok v) ∧
    (∃ v, merge_changes c m s w = Except.ok v) ∧
    (∃ v, abort_task del w = Except.ok v) ∧
    (∃ v, prune_tasks days mo w = Except.ok v) :=
  ⟨create_total n d f b w, apply_total rtt w, merge_total c m s w,
   abort_total del w, prune_total days mo w⟩

/-! ### The by-name status update -/

theorem updateFirst_decomp (name st : String) (inc : Bool) (now : Int)
    (l1 : List TaskRec) (r : TaskRec) (l2 : List TaskRec)
    (hl1 : ∀ x ∈ l1, ¬ x.name = name) (hr : r.name = name) :
    updateFirst name st inc now (l1 ++ r :: l2) =
      (l1 ++ { r with
               status := st
               last_activity := now
               commits := (if inc then r.commits + 1 else r.commits) } :: l2, true) := by
  induction l1 with
  | nil => simp [updateFirst, hr]
  | cons a as ih =>
    have ha : ¬ a.name = name := hl1 a (List.mem_cons_self a as)
    have ih' := ih (fun x hx => hl1 x (List.mem_cons_of_mem a hx))
    simp only [List.cons_append, updateFirst, beq_iff_eq, ha, if_false, List.append_eq, ih']

theorem updateFirst_mem (name st : String) (inc : Bool) (now : Int)
    (ts : List TaskRec) :
    ∀ r' ∈ (updateFirst name st inc now ts).1, r' ∈ ts ∨
      ∃ r, r ∈ ts ∧ r' = { r with
        status := st
        last_activity := now
        commits := (if inc then r.commits + 1 else r.commits) } := by
  induction ts with
  | nil => intro r' h; simp [updateFirst] at h
  | cons a as ih =>
    intro r' h
    rcases hb : (a.name == name) with _ | _
    · simp only [updateFirst, hb, Bool.false_eq_true, if_false] at h
      rcases hsplit : updateFirst name st inc now as with ⟨as', u⟩
      rw [hsplit] at h
      rcases List.mem_cons.mp h with h1 | h2
      · exact Or.inl (h1 ▸ List.mem_cons_self a as)
      · have := ih r' (by rw [hsplit]; exact h2)
        rcases this with h3 | ⟨r, hrr, he⟩
        · exact Or.inl (List.mem_cons_of_mem a h3)
        · exact Or.inr ⟨r, List.mem_cons_of_mem a hrr, he⟩
    · simp only [updateFirst, hb, if_true] at h
      rcases List.mem_cons.mp h with h1 | h2
      · exact Or.inr ⟨a, List.mem_cons_self a as, h1⟩
      · exact Or.inl (List.mem_cons_of_mem a h2)

/-! ### Claim C9: the status update locates records by name, not branch -/

/-- First record: same name as the checked-out task but a different branch. -/
def t9a : TaskRec := ⟨1, "x", "codesnap@task/other", "master", "", "Active", 0, 0, 0⟩

/-- Second record: the one whose branch is actually checked out. -/
def t9b : TaskRec := ⟨2, "x", "codesnap@task/x", "master", "", "Active", 0, 0, 0⟩

/-- A world with two records sharing the name x, standing on the second
record's branch. -/
def w9 : World :=
  ⟨⟨true, ["master", "codesnap@task/other", "codesnap@task/x"], some ("codesnap@task/x"), "", "h0"⟩,
   [(true, ""), (true, ""), (true, "")], [t9a, t9b], 7, []⟩

/-- Claim C9: the status update performed by merge and abort locates the
registry record by task name and mutates exactly the first record whose name
matches, leaving all others untouched; consequently, when two task records
share the same name, the status and last_activity update may land on a
record other than the one whose branch is currently checked out: in the
concrete world `w9` the current task (found by branch) is `t9b`, yet
`abort_task` marks `t9a` — whose branch differs from the checked-out
branch — as Aborted and leaves `t9b` Active. -/
theorem claim_C9 (st name : String) (inc : Bool) (w : World)
    (l1 : List TaskRec) (r : TaskRec) (l2 : List TaskRec)
    (hw : w.tasks = l1 ++ r :: l2)
    (hl1 : ∀ x ∈ l1, ¬ x.name = name) (hr : r.name = name) :
    ((update_task_status name st inc w).2.tasks =
      l1 ++ { r with
              status := st
              last_activity := w.now
              commits := (if inc then r.commits + 1 else r.commits) } :: l2) ∧
    (get_current_task w9 = some t9b ∧
     ¬ t9a.branch = t9b.branch ∧
     (abort_task false w9).map (fun p => p.2.tasks) =
       Except.ok [⟨1, "x", "codesnap@task/other", "master", "", "Aborted", 0, 7, 0⟩, t9b]) := by
  refine ⟨?_, rfl, by decide, rfl⟩
  unfold update_task_status
  rw [hw, updateFirst_decomp name st inc w.now l1 r l2 hl1 hr]
  rfl

/-- Witness for C9 at a concrete input: the first-name-match update applied
in `w9` rewrites exactly the first record. -/
theorem claim_C9_witness :
    (update_task_status ("x") ("Aborted") false w9).2.tasks =
      [⟨1, "x", "codesnap@task/other", "master", "", "Aborted", 0, 7, 0⟩, t9b] := by
  have h := claim_C9 ("Aborted") ("x") false w9 [] t9a [t9b] rfl (by simp) rfl
  simpa using h.1

/-! ### Git-layer operations never touch the registry or the clock -/

/-- The registry contents and the current time agree between two worlds. -/
def RegSame (a b : World) : Prop := b.tasks = a.tasks ∧ b.now = a.now

theorem regSame_rfl (w : World) : RegSame w w := ⟨rfl, rfl⟩

theorem regSame_trans {w1 w2 w3 : World} (h1 : RegSame w1 w2) (h2 : RegSame w2 w3) :
    RegSame w1 w3 := ⟨h2.1.trans h1.1, h2.2.trans h1.2⟩

theorem regSame_cast {A : Type} {w : World} {p r : A × World} (h : p = r)
    (hr : RegSame w p.2) : RegSame w r.2 := h ▸ hr

theorem takeOracle_reg (w : World) : RegSame w (takeOracle w).2 := by
  rcases ho : w.oracle with _ | ⟨e, rest⟩ <;> simp [takeOracle, ho, RegSame]

theorem rawCheckout_reg (b : String) (w : World) : RegSame w (rawCheckout b w).2 := by
  rcases ho : w.oracle with _ | ⟨⟨ok, msg⟩, rest⟩
  · simp [rawCheckout, logCall, takeOracle, ho, RegSame]
  · cases ok <;> simp [rawCheckout, logCall, takeOracle, ho, RegSame]

theorem rawCreateBranch_reg (b : String) (w : World) : RegSame w (rawCreateBranch b w).2 := by
  rcases ho : w.oracle with _ | ⟨⟨ok, msg⟩, rest⟩
  · simp [rawCreateBranch, logCall, takeOracle, ho, RegSame]
  · cases ok <;> simp [rawCreateBranch, logCall, takeOracle, ho, RegSame]

theorem rawMergeSquash_reg (b : String) (w : World) : RegSame w (rawMergeSquash b w).2 := by
  rcases ho : w.oracle with _ | ⟨⟨ok, msg⟩, rest⟩
  · simp [rawMergeSquash, logCall, takeOracle, ho, RegSame]
  · cases ok <;> simp [rawMergeSquash, logCall, takeOracle, ho, RegSame]

theorem rawCommit_reg (m : String) (w : World) : RegSame w (rawCommit m w).2 := by
  rcases ho : w.oracle with _ | ⟨⟨ok, msg⟩, rest⟩
  · simp [rawCommit, logCall, takeOracle, ho, RegSame]
  · cases ok <;> simp [rawCommit, logCall, takeOracle, ho, RegSame]

theorem rawMergeFF_reg (b : String) (w : World) : RegSame w (rawMergeFF b w).2 := by
  rcases ho : w.oracle with _ | ⟨⟨ok, msg⟩, rest⟩
  · simp [rawMergeFF, logCall, takeOracle, ho, RegSame]
  · cases ok <;> simp [rawMergeFF, logCall, takeOracle, ho, RegSame]

theorem rawDeleteBranch_reg (b : String) (w : World) : RegSame w (rawDeleteBranch b w).2 := by
  rcases ho : w.oracle with _ | ⟨⟨ok, msg⟩, rest⟩
  · simp [rawDeleteBranch, logCall, takeOracle, ho, RegSame]
  · cases ok <;> simp [rawDeleteBranch, logCall, takeOracle, ho, RegSame]

theorem rawResetHard_reg (w : World) : RegSame w (rawResetHard w).2 := by
  rcases ho : w.oracle with _ | ⟨⟨ok, msg⟩, rest⟩
  · simp [rawResetHard, logCall, takeOracle, ho, RegSame]
  · cases ok <;> simp [rawResetHard, logCall, takeOracle, ho, RegSame]

theorem rawClean_reg (w : World) : RegSame w (rawClean w).2 := by
  rcases ho : w.oracle with _ | ⟨⟨ok, msg⟩, rest⟩
  · simp [rawClean, logCall, takeOracle, ho, RegSame]
  · cases ok <;> simp [rawClean, logCall, takeOracle, ho, RegSame]

theorem checkout_branch_reg (b : String) (w : World) : RegSame w (checkout_branch b w).2 := by
  unfold checkout_branch
  split
  · exact regSame_rfl w
  · split
    · rename_i w1 heq
      show RegSame w w1
      exact regSame_cast heq (rawCheckout_reg b w)
    · rename_i e w1 heq
      show RegSame w w1
      exact regSame_cast heq (rawCheckout_reg b w)

theorem create_branch_reg (b : String) (w : World) : RegSame w (create_branch b w).2 := by
  unfold create_branch
  split
  · exact regSame_rfl w
  · split
    · rename_i w1 heq
      show RegSame w w1
      exact regSame_cast heq (rawCreateBranch_reg b w)
    · rename_i e w1 heq
      show RegSame w w1
      exact regSame_cast heq (rawCreateBranch_reg b w)

theorem delete_branch_reg (b : String) (w : World) : RegSame w (delete_branch b w).2 := by
  unfold delete_branch
  split
  · exact regSame_rfl w
  · split
    · rename_i w1 heq
      show RegSame w w1
      exact regSame_cast heq (rawDeleteBranch_reg b w)
    · rename_i e w1 heq
      show RegSame w w1
      exact regSame_cast heq (rawDeleteBranch_reg b w)

theorem abort_changes_reg (w : World) : RegSame w (abort_changes w).2 := by
  unfold abort_changes
  split
  · exact regSame_rfl w
  · split
    · exact regSame_rfl w
    · split
      · exact regSame_rfl w
      · split
        · exact regSame_rfl w
        · split
          · rename_i e w1 heq
            show RegSame w w1
            exact regSame_cast heq (rawResetHard_reg w)
          · rename_i w1 heq
            split
            · rename_i e2 w2 heq2
              show RegSame w w2
              exact regSame_trans (regSame_cast heq (rawResetHard_reg w))
                (regSame_cast heq2 (rawClean_reg w1))
            · rename_i w2 heq2
              show RegSame w w2
              exact regSame_trans (regSame_cast heq (rawResetHard_reg w))
                (regSame_cast heq2 (rawClean_reg w1))

theorem squashCleanup_reg (a b e : String) (w : World) :
    RegSame w (squashCleanup a b e w).2 := by
  unfold squashCleanup
  split
  · rename_i e2 w1 heq
    show RegSame w w1
    exact regSame_cast heq (rawCheckout_reg a w)
  · rename_i w1 heq
    split
    · split
      rename_i p w2 heq2
      show RegSame w w2
      exact regSame_trans (regSame_cast heq (rawCheckout_reg a w))
        (regSame_cast heq2 (rawDeleteBranch_reg b w1))
    · show RegSame w w1
      exact regSame_cast heq (rawCheckout_reg a w)

theorem run_rev_parse_verify_reg (b : String) (w : World) :
    RegSame w (run_rev_parse_verify b w).2 := regSame_rfl w

theorem run_merge_no_commit_reg (b : String) (w : World) :
    RegSame w (run_merge_no_commit b w).2 := by
  unfold run_merge_no_commit
  split
  · exact regSame_rfl w
  · rcases ho : w.oracle with _ | ⟨e, rest⟩ <;>
      simp [logCall, takeOracle, ho, RegSame]

theorem run_merge_abort_reg (w : World) : RegSame w (run_merge_abort w).2 := by
  unfold run_merge_abort
  split
  · exact regSame_rfl w
  · rcases ho : w.oracle with _ | ⟨e, rest⟩ <;>
      simp [logCall, takeOracle, ho, RegSame]

theorem run_merge_with_commit_reg (b m : String) (w : World) :
    RegSame w (run_merge_with_commit b m w).2 := by
  unfold run_merge_with_commit
  split
  · exact regSame_rfl w
  · rcases ho : w.oracle with _ | ⟨⟨ok, msg⟩, rest⟩
    · simp [logCall, takeOracle, ho, RegSame]
    · cases ok <;> simp [logCall, takeOracle, ho, RegSame]

theorem squash_commits_reg (m : String) (w : World) :
    RegSame w (squash_commits m w).2 := by
  unfold squash_commits
  split
  · exact regSame_rfl w
  · split
    · exact regSame_rfl w
    · split
      · exact regSame_rfl w
      · split
        · exact regSame_rfl w
        · dsimp only
          split
          · rename_i e w1 heq1
            exact regSame_trans (regSame_cast heq1 (rawCheckout_reg _ w))
              (squashCleanup_reg _ _ e w1)
          · rename_i w1 heq1
            have r1 : RegSame w w1 := regSame_cast heq1 (rawCheckout_reg _ w)
            split
            · rename_i e w2 heq2
              exact regSame_trans
                (regSame_trans r1 (regSame_cast heq2 (rawCreateBranch_reg _ w1)))
                (squashCleanup_reg _ _ e w2)
            · rename_i w2 heq2
              have r2 : RegSame w w2 :=
                regSame_trans r1 (regSame_cast heq2 (rawCreateBranch_reg _ w1))
              split
              · rename_i e w3 heq3
                exact regSame_trans
                  (regSame_trans r2 (regSame_cast heq3 (rawMergeSquash_reg _ w2)))
                  (squashCleanup_reg _ _ e w3)
              · rename_i w3 heq3
                have r3 : RegSame w w3 :=
                  regSame_trans r2 (regSame_cast heq3 (rawMergeSquash_reg _ w2))
                split
                · rename_i e w4 heq4
                  exact regSame_trans
                    (regSame_trans r3 (regSame_cast heq4 (rawCommit_reg m w3)))
                    (squashCleanup_reg _ _ e w4)
                · rename_i w4 heq4
                  have r4 : RegSame w w4 :=
                    regSame_trans r3 (regSame_cast heq4 (rawCommit_reg m w3))
                  split
                  · rename_i e w5 heq5
                    exact regSame_trans
                      (regSame_trans r4 (regSame_cast heq5 (rawCheckout_reg _ w4)))
                      (squashCleanup_reg _ _ e w5)
                  · rename_i w5 heq5
                    have r5 : RegSame w w5 :=
                      regSame_trans r4 (regSame_cast heq5 (rawCheckout_reg _ w4))
                    split
                    · rename_i e w6 heq6
                      exact regSame_trans
                        (regSame_trans r5 (regSame_cast heq6 (rawMergeFF_reg _ w5)))
                        (squashCleanup_reg _ _ e w6)
                    · rename_i w6 heq6
                      have r6 : RegSame w w6 :=
                        regSame_trans r5 (regSame_cast heq6 (rawMergeFF_reg _ w5))
                      split
                      · rename_i e w7 heq7
                        exact regSame_trans
                          (regSame_trans r6 (regSame_cast heq7 (rawDeleteBranch_reg _ w6)))
                          (squashCleanup_reg _ _ e w7)
                      · rename_i w7 heq7
                        show RegSame w w7
                        exact regSame_trans r6 (regSame_cast heq7 (rawDeleteBranch_reg _ w6))

/-! ### How one operation can change a registry record -/

theorem ok_pair_inj {A : Type} {a res : A} {b w' : World}
    (h : (Except.ok (a, b) : Except String (A × World)) = Except.ok (res, w')) :
    res = a ∧ w' = b := by
  injection h with h1
  exact ⟨(congrArg Prod.fst h1).symm, (congrArg Prod.snd h1).symm⟩

theorem update_task_status_mem (n s : String) (w : World) :
    ∀ r' ∈ (update_task_status n s false w).2.tasks, r' ∈ w.tasks ∨
      ∃ r, r ∈ w.tasks ∧ r' = { r with status := s, last_activity := w.now } := by
  intro r' hm
  unfold update_task_status at hm
  rcases hu : updateFirst n s false w.now w.tasks with ⟨ts', u⟩
  rw [hu] at hm
  simp only at hm
  cases u with
  | false => simp at hm; exact Or.inl hm
  | true =>
    simp at hm
    have := updateFirst_mem n s false w.now w.tasks r' (by rw [hu]; exact hm)
    rcases this with h1 | ⟨r, hr, he⟩
    · exact Or.inl h1
    · exact Or.inr ⟨r, hr, he⟩


theorem apply_changes_reg (rtt : Bool) (w : World) {res : Bool × String} {w' : World}
    (h : apply_changes rtt w = Except.ok (res, w')) : RegSame w w' := by
  unfold apply_changes at h
  split at h
  · obtain ⟨-, h2⟩ := ok_pair_inj h
    subst h2
    exact regSame_rfl _
  · rename_i task htask
    dsimp only at h
    split at h
    · rename_i out w1 heq1
      obtain ⟨-, h2⟩ := ok_pair_inj h
      subst h2
      exact regSame_cast heq1 (checkout_branch_reg _ w)
    · rename_i s1 w1 heq1
      have r1 : RegSame w w1 := regSame_cast heq1 (checkout_branch_reg _ w)
      split at h
      · rename_i out w2 heq2
        obtain ⟨-, h2⟩ := ok_pair_inj h
        subst h2
        have r2 : RegSame w w2 :=
          regSame_trans r1 (regSame_cast heq2 (run_merge_no_commit_reg _ w1))
        exact regSame_trans (regSame_trans r2 (run_merge_abort_reg w2))
          (checkout_branch_reg _ _)
      · rename_i s2 w2 heq2
        have r2 : RegSame w w2 :=
          regSame_trans r1 (regSame_cast heq2 (run_merge_no_commit_reg _ w1))
        split at h
        · obtain ⟨-, h2⟩ := ok_pair_inj h
          subst h2
          exact regSame_trans r2 (checkout_branch_reg _ w2)
        · obtain ⟨-, h2⟩ := ok_pair_inj h
          subst h2
          exact r2

theorem rawCheckout_branches (b : String) (w : World) :
    (rawCheckout b w).2.git.branches = w.git.branches := by
  rcases ho : w.oracle with _ | ⟨⟨ok, msg⟩, rest⟩
  · simp [rawCheckout, logCall, takeOracle, ho]
  · cases ok <;> simp [rawCheckout, logCall, takeOracle, ho]

theorem checkout_branch_branches (b : String) (w : World) :
    (checkout_branch b w).2.git.branches = w.git.branches := by
  unfold checkout_branch
  split
  · rfl
  · split
    · rename_i w1 heq
      have hb := rawCheckout_branches b w
      rw [heq] at hb
      exact hb
    · rename_i e w1 heq
      have hb := rawCheckout_branches b w
      rw [heq] at hb
      exact hb

theorem rawCreateBranch_fail_branches {b : String} {w : World} {e : String} {w1 : World}
    (h : rawCreateBranch b w = (some e, w1)) : w1.git.branches = w.git.branches := by
  rcases ho : w.oracle with _ | ⟨⟨ok, msg⟩, rest⟩
  · simp [rawCreateBranch, logCall, takeOracle, ho] at h
    rw [← h.2]
  · cases ok
    · simp [rawCreateBranch, logCall, takeOracle, ho] at h
      rw [← h.2]
    · simp [rawCreateBranch, logCall, takeOracle, ho] at h

theorem create_branch_fail_branches {b : String} {w : World} {out : String} {w1 : World}
    (h : create_branch b w = ((false, out), w1)) : w1.git.branches = w.git.branches := by
  unfold create_branch at h
  split at h
  · cases h
    rfl
  · split at h
    · simp at h
    · rename_i e w2 heq
      cases h
      exact rawCreateBranch_fail_branches heq

theorem create_task_cases (n d : String) (f : Bool) (base : Option String) (w : World)
    {res : Bool × String} {w' : World}
    (h : create_task n d f base w = Except.ok (res, w')) :
    (res.1 = false ∧ w'.tasks = w.tasks ∧ w'.git.branches = w.git.branches) ∨
    (res.1 = true ∧ w'.now = w.now ∧ ∃ bb,
      w'.tasks = w.tasks ++
        [⟨nextId w.tasks, n, taskPref ++ n, bb, d, "Active", w.now, w.now, 0⟩]) := by
  unfold create_task at h
  split at h
  · obtain ⟨h1, h2⟩ := ok_pair_inj h
    subst h2
    exact Or.inl ⟨by rw [h1], rfl, rfl⟩
  · split at h
    · obtain ⟨h1, h2⟩ := ok_pair_inj h
      subst h2
      exact Or.inl ⟨by rw [h1], rfl, rfl⟩
    · split at h
      · obtain ⟨h1, h2⟩ := ok_pair_inj h
        subst h2
        exact Or.inl ⟨by rw [h1], rfl, rfl⟩
      · rename_i baseB hbase
        dsimp only at h
        split at h
        · obtain ⟨h1, h2⟩ := ok_pair_inj h
          subst h2
          exact Or.inl ⟨by rw [h1], rfl, rfl⟩
        · split at h
          · rename_i out w2 heq2
            have r2 : RegSame w w2 :=
              regSame_cast heq2 (checkout_branch_reg baseB (run_rev_parse_verify baseB w).2)
            have hb2 := checkout_branch_branches baseB (run_rev_parse_verify baseB w).2
            rw [heq2] at hb2
            obtain ⟨h1, h2⟩ := ok_pair_inj h
            subst h2
            exact Or.inl ⟨by rw [h1], r2.1, hb2⟩
          · rename_i s2 w2 heq2
            have r2 : RegSame w w2 :=
              regSame_cast heq2 (checkout_branch_reg baseB (run_rev_parse_verify baseB w).2)
            have hb2 := checkout_branch_branches baseB (run_rev_parse_verify baseB w).2
            rw [heq2] at hb2
            split at h
            · rename_i out w3 heq3
              have r3 : RegSame w w3 :=
                regSame_trans r2 (regSame_cast heq3 (create_branch_reg _ w2))
              have hb3 := create_branch_fail_branches heq3
              obtain ⟨h1, h2⟩ := ok_pair_inj h
              subst h2
              exact Or.inl ⟨by rw [h1], r3.1, hb3.trans hb2⟩
            · rename_i s3 w3 heq3
              have r3 : RegSame w w3 :=
                regSame_trans r2 (regSame_cast heq3 (create_branch_reg _ w2))
              obtain ⟨h1, h2⟩ := ok_pair_inj h
              subst h2
              refine Or.inr ⟨by rw [h1], r3.2, baseB, ?_⟩
              show w3.tasks ++ _ = _
              rw [r3.1, r3.2]

theorem pruneLoop_reg (days : Int) (mo : Bool) (cur : Option String) (now : Int)
    (ts : List TaskRec) : ∀ (w : World), RegSame w (pruneLoop days mo cur now ts w).2 := by
  induction ts with
  | nil => intro w; exact regSame_rfl w
  | cons t ts ih =>
    intro w
    unfold pruneLoop
    split
    · exact ih w
    · split
      · split
        · exact ih w
        · dsimp only
          split
          · split
            · rename_i s2 w2 heq2
              show RegSame w (pruneLoop days mo cur now ts w2).2
              exact regSame_trans (regSame_cast heq2 (delete_branch_reg _ _)) (ih w2)
            · rename_i s2 w2 heq2
              exact regSame_trans (regSame_cast heq2 (delete_branch_reg _ _)) (ih w2)
          · exact ih _
      · exact ih w

theorem prune_tasks_sub (days : Int) (mo : Bool) (w : World) {n : Nat} {w' : World}
    (h : prune_tasks days mo w = Except.ok (n, w')) :
    ∀ r' ∈ w'.tasks, r' ∈ w.tasks := by
  unfold prune_tasks at h
  split at h
  · obtain ⟨-, h2⟩ := ok_pair_inj h
    subst h2
    exact fun r hr => hr
  · dsimp only at h
    split at h
    · obtain ⟨-, h2⟩ := ok_pair_inj h
      subst h2
      intro r hr
      have ht := (pruneLoop_reg days mo (get_current_branch w) w.now w.tasks w).1
      rw [ht] at hr
      exact hr
    · obtain ⟨-, h2⟩ := ok_pair_inj h
      subst h2
      intro r hr
      have ht := (pruneLoop_reg days mo (get_current_branch w) w.now w.tasks w).1
      have hr' := List.mem_filter.mp hr
      rw [ht] at hr'
      exact hr'.1

theorem merge_changes_evolved (c : Bool) (msg : Option String) (sq : Bool) (w : World)
    {res : Bool × String} {w' : World}
    (h : merge_changes c msg sq w = Except.ok (res, w')) :
    ∀ r' ∈ w'.tasks, r' ∈ w.tasks ∨
      ∃ r, r ∈ w.tasks ∧ r' = { r with status := "Merged", last_activity := w.now } := by
  unfold merge_changes at h
  split at h
  · obtain ⟨-, h2⟩ := ok_pair_inj h
    subst h2
    exact fun r hr => Or.inl hr
  · rename_i task htask
    dsimp only at h
    split at h
    · split at h
      · rename_i s1 w1 heq1
        have r1 : RegSame w w1 := regSame_cast heq1 (squash_commits_reg _ w)
        obtain ⟨-, h2⟩ := ok_pair_inj h
        subst h2
        intro r' hr'
        have hco :=
          (checkout_branch_reg task.base_branch
            (update_task_status task.name ("Merged") false w1).2).1
        rw [hco] at hr'
        have := update_task_status_mem task.name ("Merged") w1 r' hr'
        rcases this with h3 | ⟨r, hrm, he⟩
        · exact Or.inl (r1.1 ▸ h3)
        · refine Or.inr ⟨r, r1.1 ▸ hrm, ?_⟩
          rw [he, r1.2]
      · rename_i result w1 heq1
        have r1 : RegSame w w1 := regSame_cast heq1 (squash_commits_reg _ w)
        obtain ⟨-, h2⟩ := ok_pair_inj h
        subst h2
        exact fun r hr => Or.inl (r1.1 ▸ hr)
    · split at h
      · split at h
        · rename_i out w1 heq1
          have r1 : RegSame w w1 := regSame_cast heq1 (checkout_branch_reg _ w)
          obtain ⟨-, h2⟩ := ok_pair_inj h
          subst h2
          exact fun r hr => Or.inl (r1.1 ▸ hr)
        · rename_i s1 w1 heq1
          have r1 : RegSame w w1 := regSame_cast heq1 (checkout_branch_reg _ w)
          split at h
          · rename_i s2 w2 heq2
            have r2 : RegSame w w2 :=
              regSame_trans r1 (regSame_cast heq2 (run_merge_with_commit_reg _ _ w1))
            obtain ⟨-, h2⟩ := ok_pair_inj h
            subst h2
            intro r' hr'
            have := update_task_status_mem task.name ("Merged") w2 r' hr'
            rcases this with h3 | ⟨r, hrm, he⟩
            · exact Or.inl (r2.1 ▸ h3)
            · refine Or.inr ⟨r, r2.1 ▸ hrm, ?_⟩
              rw [he, r2.2]
          · rename_i out w2 heq2
            have r2 : RegSame w w2 :=
              regSame_trans r1 (regSame_cast heq2 (run_merge_with_commit_reg _ _ w1))
            obtain ⟨-, h2⟩ := ok_pair_inj h
            subst h2
            intro r' hr'
            have hco := (checkout_branch_reg (curBranchStr w) w2).1
            rw [hco] at hr'
            exact Or.inl (r2.1 ▸ hr')
      · have rap := apply_changes_reg false w h
        exact fun r hr => Or.inl (rap.1 ▸ hr)

theorem abort_task_evolved (del : Bool) (w : World) {res : Bool × String} {w' : World}
    (h : abort_task del w = Except.ok (res, w')) :
    ∀ r' ∈ w'.tasks, r' ∈ w.tasks ∨
      ∃ r, r ∈ w.tasks ∧ r' = { r with status := "Aborted", last_activity := w.now } := by
  unfold abort_task at h
  split at h
  · obtain ⟨-, h2⟩ := ok_pair_inj h
    subst h2
    exact fun r hr => Or.inl hr
  · rename_i task htask
    dsimp only at h
    split at h
    · rename_i msg1 w1 heq1
      have r1 : RegSame w w1 := regSame_cast heq1 (abort_changes_reg w)
      obtain ⟨-, h2⟩ := ok_pair_inj h
      subst h2
      exact fun r hr => Or.inl (r1.1 ▸ hr)
    · rename_i s1 w1 heq1
      have r1 : RegSame w w1 := regSame_cast heq1 (abort_changes_reg w)
      split at h
      · rename_i out w2 heq2
        have r2 : RegSame w w2 :=
          regSame_trans r1 (regSame_cast heq2 (checkout_branch_reg _ w1))
        obtain ⟨-, h2⟩ := ok_pair_inj h
        subst h2
        exact fun r hr => Or.inl (r2.1 ▸ hr)
      · rename_i s2 w2 heq2
        have r2 : RegSame w w2 :=
          regSame_trans r1 (regSame_cast heq2 (checkout_branch_reg _ w1))
        have key : ∀ r' ∈ (update_task_status task.name ("Aborted") false w2).2.tasks,
            r' ∈ w.tasks ∨
            ∃ r, r ∈ w.tasks ∧ r' = { r with status := "Aborted", last_activity := w.now } := by
          intro r' hr'
          have := update_task_status_mem task.name ("Aborted") w2 r' hr'
          rcases this with h3 | ⟨r, hrm, he⟩
          · exact Or.inl (r2.1 ▸ h3)
          · refine Or.inr ⟨r, r2.1 ▸ hrm, ?_⟩
            rw [he, r2.2]
        split at h
        · split at h
          · rename_i s3 w4 heq4
            have r4 :=
              regSame_cast heq4
                (delete_branch_reg task.branch (update_task_status task.name ("Aborted") false w2).2)
            obtain ⟨-, h2⟩ := ok_pair_inj h
            subst h2
            intro r' hr'
            have hr2 := List.mem_filter.mp hr'
            have h5 := r4.1 ▸ hr2.1
            exact key r' h5
          · rename_i out w4 heq4
            have r4 :=
              regSame_cast heq4
                (delete_branch_reg task.branch (update_task_status task.name ("Aborted") false w2).2)
            obtain ⟨-, h2⟩ := ok_pair_inj h
            subst h2
            intro r' hr'
            exact key r' (r4.1 ▸ hr')
        · obtain ⟨-, h2⟩ := ok_pair_inj h
          subst h2
          exact key

/-! ### Claim C4: status transitions -/

/-- What a single lifecycle operation can do to a registry record: leave it
untouched, restamp it Merged or Aborted (touching last_activity), or — only
for a successful create — add a fresh Active record. -/
def RecEvolved (w : World) (r' : TaskRec) : Prop :=
  r' ∈ w.tasks ∨
  (∃ r s, r ∈ w.tasks ∧ (s = "Merged" ∨ s = "Aborted") ∧
    r' = { r with status := s, last_activity := w.now }) ∨
  (r'.status = "Active" ∧ r'.created = w.now ∧ r'.commits = 0)

/-- Initial world of the counterexample run: a clean repository on master,
an empty registry, and realistic adapter outcomes (every git command
succeeds except the second create, whose branch already exists). -/
def w4a : World :=
  ⟨⟨true, ["master"], some ("master"), "", "h0"⟩,
   [(true, ""), (true, ""), (true, ""), (true, ""), (true, ""), (true, "abc"),
    (true, ""), (true, ""), (true, ""), (true, ""), (true, ""), (false, "exists"),
    (true, ""), (true, ""), (true, "")],
   [], 0, []⟩

/-- The violating sequence: create x; squash-merge it (x becomes Merged and
the manager checks out master); create y with the task branch of x as base
branch, which checks out x's branch and then fails to create y's branch;
abort, which now runs on x's branch and restamps the Merged record Aborted.
The observables are (id, status) of every record after the merge and after
the abort. -/
def runC4 : Except String (List (Int × String) × List (Int × String)) := do
  let (_, w1) ← create_task ("x") ("") false none w4a
  let (_, w2) ← merge_changes false none true w1
  let (_, w3) ← create_task ("y") ("") false (some ("codesnap@task/x")) w2
  let (_, w4) ← abort_task false w3
  pure (w2.tasks.map (fun t => (t.id, t.status)), w4.tasks.map (fun t => (t.id, t.status)))

/-- Counterexample to claim C4 as stated: in the reachable run `runC4` the
record with id 1 has status Merged after the squash integrate and status
Aborted after the subsequent abort — an operation does move a record out of
Merged, so transitions are not limited to Active→Merged and
Active→Aborted. -/
theorem claim_C4_cex : runC4 = Except.ok ([(1, "Merged")], [(1, "Aborted")]) := rfl

/-- Claim C4, amended: for every lifecycle operation and every record of the
resulting registry, the record is an untouched old record, an old record
whose status was set to Merged or Aborted (never back to Active), or the
fresh Active record of a successful create; hence no existing record ever
re-enters Active, but a record can move between Merged and Aborted (see the
counterexample), so Merged and Aborted are not terminal. -/
theorem claim_C4 (w : World) (n d : String) (f : Bool) (b : Option String)
    (c : Bool) (m : Option String) (sq : Bool) (del : Bool) (days : Int) (mo : Bool)
    (rtt : Bool) :
    (∀ res w', create_task n d f b w = Except.ok (res, w') →
      ∀ r' ∈ w'.tasks, RecEvolved w r') ∧
    (∀ res w', apply_changes rtt w = Except.ok (res, w') →
      ∀ r' ∈ w'.tasks, RecEvolved w r') ∧
    (∀ res w', merge_changes c m sq w = Except.ok (res, w') →
      ∀ r' ∈ w'.tasks, RecEvolved w r') ∧
    (∀ res w', abort_task del w = Except.ok (res, w') →
      ∀ r' ∈ w'.tasks, RecEvolved w r') ∧
    (∀ cnt w', prune_tasks days mo w = Except.ok (cnt, w') →
      ∀ r' ∈ w'.tasks, RecEvolved w r') := by
  refine ⟨?_, ?_, ?_, ?_, ?_⟩
  · intro res w' h r' hr
    rcases create_task_cases n d f b w h with ⟨-, ht, -⟩ | ⟨-, -, bb, ht⟩
    · rw [ht] at hr
      exact Or.inl hr
    · rw [ht] at hr
      rcases List.mem_append.mp hr with h1 | h2
      · exact Or.inl h1
      · have : r' = ⟨nextId w.tasks, n, taskPref ++ n, bb, d, "Active", w.now, w.now, 0⟩ := by
          simpa using h2
        exact Or.inr (Or.inr (by rw [this]; exact ⟨rfl, rfl, rfl⟩))
  · intro res w' h r' hr
    rw [(apply_changes_reg rtt w h).1] at hr
    exact Or.inl hr
  · intro res w' h r' hr
    rcases merge_changes_evolved c m sq w h r' hr with h1 | ⟨r, hrm, he⟩
    · exact Or.inl h1
    · exact Or.inr (Or.inl ⟨r, "Merged", hrm, Or.inl rfl, he⟩)
  · intro res w' h r' hr
    rcases abort_task_evolved del w h r' hr with h1 | ⟨r, hrm, he⟩
    · exact Or.inl h1
    · exact Or.inr (Or.inl ⟨r, "Aborted", hrm, Or.inr rfl, he⟩)
  · intro cnt w' h r' hr
    exact Or.inl (prune_tasks_sub days mo w h r' hr)

/-- Witness for the amended C4 at a concrete input: the record created by a
successful create on a two-entry oracle satisfies the evolution predicate. -/
theorem claim_C4_witness :
    RecEvolved ⟨⟨true, ["master"], some ("master"), "", "h0"⟩, [(true, ""), (true, "")], [], 0, []⟩
      ⟨1, "x", "codesnap@task/x", "master", "", "Active", 0, 0, 0⟩ := by
  have h := (claim_C4 ⟨⟨true, ["master"], some ("master"), "", "h0"⟩,
    [(true, ""), (true, "")], [], 0, []⟩ ("x") ("") false none
    false none false false 30 false false).1
  exact h _ _ rfl _ (by decide)

/-! ### Claim C5: id assignment -/

theorem le_maxId (ts : List TaskRec) : ∀ t ∈ ts, t.id ≤ maxId ts := by
  induction ts with
  | nil => intro t h; cases h
  | cons a as ih =>
    intro t h
    rcases List.mem_cons.mp h with h1 | h2
    · subst h1
      cases as with
      | nil => simp [maxId]
      | cons b bs => simp [maxId]
    · cases as with
      | nil => cases h2
      | cons b bs =>
        have h3 := ih t h2
        have h4 : maxId (a :: b :: bs) = max a.id (maxId (b :: bs)) := rfl
        rw [h4]
        exact le_trans h3 (le_max_right _ _)

theorem id_lt_nextId (ts : List TaskRec) : ∀ t ∈ ts, t.id < nextId ts := by
  intro t h
  cases ts with
  | nil => cases h
  | cons a as =>
    have h1 := le_maxId (a :: as) t h
    have h2 : nextId (a :: as) = maxId (a :: as) + 1 := rfl
    omega

/-- Initial world of the id-reuse run: clean repository on master, empty
registry, ten successful adapter outcomes. -/
def w5a : World :=
  ⟨⟨true, ["master"], some ("master"), "", "h0"⟩, List.replicate 10 (true, ""), [], 0, []⟩

/-- create x (id 1); create y (id 2); abort y with branch deletion, which
removes y's record; create z — which is assigned id 2 again.  Observables:
the registry ids after each step. -/
def runC5 : Except String (List Int × List Int × List Int) := do
  let (_, w1) ← create_task ("x") ("") false none w5a
  let (_, w2) ← create_task ("y") ("") false (some ("master")) w1
  let (_, w3) ← abort_task true w2
  let (_, w4) ← create_task ("z") ("") false (some ("master")) w3
  pure (w2.tasks.map (fun t => t.id), w3.tasks.map (fun t => t.id),
    w4.tasks.map (fun t => t.id))

/-- Counterexample to claim C5 as stated: id 2 is assigned to task y, y's
record is removed by abort-with-delete, and the next create assigns id 2
again — an id is reused within a single registry lifetime. -/
theorem claim_C5_cex : runC5 = Except.ok ([1, 2], [1], [1, 2]) := rfl

/-- Claim C5, amended: task ids are assigned as the maximum existing id plus
one (1 when the registry is empty), so a new id is strictly greater than
every id currently in the registry and ids are unique among coexisting
records; but after the record holding the maximum id is removed
(abort-with-delete or prune) that id can be assigned again to a later task
(see the counterexample). -/
theorem claim_C5 (n d : String) (f : Bool) (b : Option String) (w : World)
    {res : Bool × String} {w' : World}
    (h : create_task n d f b w = Except.ok (res, w')) (hs : res.1 = true) :
    ∃ bb, w'.tasks = w.tasks ++
        [⟨nextId w.tasks, n, taskPref ++ n, bb, d, "Active", w.now, w.now, 0⟩] ∧
      nextId w.tasks = (if w.tasks = [] then 1 else maxId w.tasks + 1) ∧
      ∀ r ∈ w.tasks, r.id < nextId w.tasks := by
  rcases create_task_cases n d f b w h with ⟨hf, -, -⟩ | ⟨-, -, bb, ht⟩
  · rw [hs] at hf
    cases hf
  · refine ⟨bb, ht, ?_, id_lt_nextId w.tasks⟩
    cases w.tasks with
    | nil => rfl
    | cons a as => simp [nextId]

/-- Initial world for the create witness. -/
def w5w : World :=
  ⟨⟨true, ["master"], some ("master"), "", "h0"⟩, [(true, ""), (true, "")], [], 0, []⟩

/-- Witness for the amended C5 at a concrete input: a successful create on
`w5w` appends the record with id `nextId [] = 1`. -/
theorem claim_C5_witness :
    ∃ bb, (⟨⟨true, ["master", "codesnap@task/x"], some ("codesnap@task/x"), "", "h0"⟩, [],
        [⟨1, "x", "codesnap@task/x", "master", "", "Active", 0, 0, 0⟩], 0,
        [Call.checkout ("master"), Call.createBranch ("codesnap@task/x")]⟩ : World).tasks =
      w5w.tasks ++
        [⟨nextId w5w.tasks, "x", taskPref ++ "x", bb, "", "Active", w5w.now, w5w.now, 0⟩] ∧
      nextId w5w.tasks = (if w5w.tasks = [] then 1 else maxId w5w.tasks + 1) ∧
      ∀ r ∈ w5w.tasks, r.id < nextId w5w.tasks :=
  claim_C5 ("x") ("") false none w5w rfl rfl

/-! ### Claim C3: commit integrate -/

/-- Claim C3: for every commit integrate performed while on a task branch
(current branch cb, current task record t, first adapter outcome: base
checkout succeeds): on merge success the result is a success message, the
task's registry record becomes Merged (with last_activity updated), and the
checked-out branch remains the base branch; on merge failure the manager
performs a checkout of the task branch again (final trace call), returns the
adapter's error wrapped as a failure result, and the registry — hence every
status — is unchanged. -/
theorem claim_C3 (m : Option String) (w : World) (t : TaskRec) (cb s1 s2 s3 : String)
    (mo co : Bool) (rest : List (Bool × String)) (l1 l2 : List TaskRec)
    (hrepo : w.git.isRepo = true)
    (hcur : w.git.current = some cb)
    (htask : get_current_task w = some t)
    (ho : w.oracle = (true, s1) :: (mo, s2) :: (co, s3) :: rest)
    (hsplit : w.tasks = l1 ++ t :: l2)
    (hl1 : ∀ x ∈ l1, ¬ x.name = t.name) :
    (mo = true → ∃ w', merge_changes true m false w = Except.ok
        ((true, "Merged " ++ q cb ++ " into " ++ q t.base_branch ++
          " and stayed on " ++ t.base_branch), w') ∧
      w'.git.current = some t.base_branch ∧
      w'.tasks = l1 ++ { t with status := "Merged", last_activity := w.now } :: l2 ∧
      w'.trace = w.trace ++
        [Call.checkout t.base_branch, Call.mergeWithCommit cb (mergeMsgOf m t)]) ∧
    (mo = false → ∃ w', merge_changes true m false w = Except.ok
        ((false, "Failed to merge: " ++ s2), w') ∧
      w'.tasks = w.tasks ∧
      w'.git.current = (if co = true then some cb else some t.base_branch) ∧
      w'.trace = w.trace ++
        [Call.checkout t.base_branch, Call.mergeWithCommit cb (mergeMsgOf m t),
         Call.checkout cb]) := by
  obtain ⟨⟨ir, br, cur, ch, hd⟩, orc, tsk, now, trc⟩ := w
  dsimp only at hrepo hcur ho hsplit ⊢
  subst hrepo
  subst hcur
  subst ho
  subst hsplit
  constructor
  · rintro rfl
    refine ⟨⟨⟨true, br, some t.base_branch, ch, s2⟩, (co, s3) :: rest,
      l1 ++ ({ t with status := "Merged", last_activity := now }) :: l2, now,
      ((trc ++ [Call.checkout t.base_branch]) ++
        [Call.mergeWithCommit cb (mergeMsgOf m t)])⟩, ?_, ?_, ?_, ?_⟩
    · unfold merge_changes
      rw [htask]
      simp [checkout_branch, rawCheckout, logCall, takeOracle, curBranchStr,
        get_current_branch, run_merge_with_commit, update_task_status,
        updateFirst_decomp t.name ("Merged") false now l1 t l2 hl1 rfl]
    · rfl
    · rfl
    · simp
  · rintro rfl
    cases co
    · refine ⟨⟨⟨true, br, some t.base_branch, ch, hd⟩, rest, l1 ++ t :: l2, now,
        (((trc ++ [Call.checkout t.base_branch]) ++
          [Call.mergeWithCommit cb (mergeMsgOf m t)]) ++ [Call.checkout cb])⟩,
        ?_, ?_, ?_, ?_⟩
      · unfold merge_changes
        rw [htask]
        simp [checkout_branch, rawCheckout, logCall, takeOracle, curBranchStr,
          get_current_branch, run_merge_with_commit]
      · rfl
      · rfl
      · simp
    · refine ⟨⟨⟨true, br, some cb, ch, hd⟩, rest, l1 ++ t :: l2, now,
        (((trc ++ [Call.checkout t.base_branch]) ++
          [Call.mergeWithCommit cb (mergeMsgOf m t)]) ++ [Call.checkout cb])⟩,
        ?_, ?_, ?_, ?_⟩
      · unfold merge_changes
        rw [htask]
        simp [checkout_branch, rawCheckout, logCall, takeOracle, curBranchStr,
          get_current_branch, run_merge_with_commit]
      · rfl
      · rfl
      · simp

/-- The task record of the C3 witness world. -/
def t3x : TaskRec := ⟨1, "x", "codesnap@task/x", "master", "", "Active", 0, 0, 0⟩

/-- C3 witness world: on the task branch, all three adapter outcomes
successful. -/
def wc3 : World :=
  ⟨⟨true, ["master", "codesnap@task/x"], some ("codesnap@task/x"), "", "h0"⟩,
   [(true, ""), (true, "m1"), (true, "")], [t3x], 9, []⟩

/-- Witness for C3 at a concrete input: successful commit integrate on
`wc3`. -/
theorem claim_C3_witness :
    ∃ w', merge_changes true none false wc3 = Except.ok
        ((true, "Merged " ++ q ("codesnap@task/x") ++ " into " ++ q t3x.base_branch ++
          " and stayed on " ++ t3x.base_branch), w') ∧
      w'.git.current = some t3x.base_branch ∧
      w'.tasks = [] ++ { t3x with status := "Merged", last_activity := wc3.now } :: [] ∧
      w'.trace = wc3.trace ++
        [Call.checkout t3x.base_branch,
         Call.mergeWithCommit ("codesnap@task/x") (mergeMsgOf none t3x)] :=
  (claim_C3 none wc3 t3x ("codesnap@task/x") ("") ("m1") ("") true true [] [] []
    rfl rfl rfl rfl rfl (by simp)).1 rfl

/-! ### Claim C2: squash integrate -/

/-- A task forked from dev, in a repository whose main branch is master. -/
def t2x : TaskRec := ⟨1, "x", "codesnap@task/x", "dev", "", "Active", 0, 0, 0⟩

/-- Counterexample world: on the task branch of `t2x`; the seven squash
steps succeed, the manager's final checkout of the recorded base branch
fails. -/
def w2c : World :=
  ⟨⟨true, ["master", "dev", "codesnap@task/x"], some ("codesnap@task/x"), "", "h0"⟩,
   [(true, ""), (true, ""), (true, ""), (true, "abc1234"), (true, ""), (true, ""),
    (true, ""), (false, "boom")],
   [t2x], 5, []⟩

/-- Counterexample to claim C2 as stated: in `w2c` the task's recorded
base_branch is dev, yet the squash procedure's first step checks out master
(the repository's main branch) — the first trace entry — the squashed
commit is integrated into master, and after the successful squash integrate
the checked-out branch is master, not the base branch dev. -/
theorem claim_C2_cex :
    ((merge_changes false none true w2c).map
        (fun p => (p.1.1, p.2.git.current, p.2.trace.head?, p.2.tasks.map (fun t => t.status))) =
      Except.ok (true, some ("master"), some (Call.checkout ("master")), ["Merged"])) ∧
    ¬ (some ("master") : Option String) = some t2x.base_branch ∧
    ¬ Call.checkout ("master") = Call.checkout t2x.base_branch :=
  ⟨rfl, by decide, by decide⟩

/-- Claim C2, amended: for every squash integrate performed while on a task
branch in which all seven squash steps succeed, the squash procedure's first
step checks out the repository's main branch (the first of master, main that
exists) — not the task's recorded base_branch — and the squashed commit is
integrated into that main branch; on success the task's status becomes
Merged and the manager then attempts to check out the recorded base branch,
so the checked-out branch is the base branch exactly when that final
checkout succeeds, and remains the main branch otherwise. -/
theorem claim_C2 (m : Option String) (w : World) (t : TaskRec) (cb mb : String)
    (s1 s2 s3 s4 s5 s6 s7 s8 : String) (cf : Bool) (rest : List (Bool × String))
    (l1 l2 : List TaskRec)
    (hrepo : w.git.isRepo = true)
    (hcur : w.git.current = some cb)
    (hcb : ¬ cb = "")
    (htask : get_current_task w = some t)
    (hmain : get_main_branch w = some mb)
    (ho : w.oracle = (true, s1) :: (true, s2) :: (true, s3) :: (true, s4) :: (true, s5) ::
      (true, s6) :: (true, s7) :: (cf, s8) :: rest)
    (hsplit : w.tasks = l1 ++ t :: l2)
    (hl1 : ∀ x ∈ l1, ¬ x.name = t.name) :
    (merge_changes false m true w).map
        (fun p => (p.1, p.2.git.current, p.2.tasks, p.2.trace)) =
      Except.ok ((true, "Squashed and merged " ++ q cb ++ " into " ++ q t.base_branch ++
          " and switched to " ++ t.base_branch),
        (if cf = true then some t.base_branch else some mb),
        l1 ++ { t with status := "Merged", last_activity := w.now } :: l2,
        w.trace ++ [Call.checkout mb, Call.createBranch ("temp-" ++ toString w.now),
          Call.mergeSquash cb, Call.commit (mergeMsgOf m t), Call.checkout mb,
          Call.mergeFF ("temp-" ++ toString w.now),
          Call.deleteBranch ("temp-" ++ toString w.now), Call.checkout t.base_branch]) := by
  obtain ⟨⟨ir, br, cur, ch, hd⟩, orc, tsk, now, trc⟩ := w
  dsimp only at hrepo hcur ho hsplit hmain ⊢
  subst hrepo
  subst hcur
  subst ho
  subst hsplit
  unfold merge_changes
  rw [htask]
  dsimp only
  unfold squash_commits
  rw [hmain]
  cases cf <;>
    simp [hcb, rawCheckout, rawCreateBranch, rawMergeSquash, rawCommit, rawMergeFF,
      rawDeleteBranch, logCall, takeOracle, get_current_branch, curBranchStr,
      checkout_branch, update_task_status, Except.map,
      updateFirst_decomp t.name ("Merged") false now l1 t l2 hl1 rfl]

/-- C2 witness world: like `w2c` but the final checkout of dev succeeds. -/
def w2w : World :=
  ⟨⟨true, ["master", "dev", "codesnap@task/x"], some ("codesnap@task/x"), "", "h0"⟩,
   [(true, ""), (true, ""), (true, ""), (true, "abc1234"), (true, ""), (true, ""),
    (true, ""), (true, "")],
   [t2x], 5, []⟩

/-- Witness for the amended C2 at a concrete input. -/
theorem claim_C2_witness :
    (merge_changes false none true w2w).map
        (fun p => (p.1, p.2.git.current, p.2.tasks, p.2.trace)) =
      Except.ok ((true, "Squashed and merged " ++ q ("codesnap@task/x") ++ " into " ++
          q t2x.base_branch ++ " and switched to " ++ t2x.base_branch),
        (if true = true then some t2x.base_branch else some ("master")),
        [] ++ { t2x with status := "Merged", last_activity := w2w.now } :: [],
        w2w.trace ++ [Call.checkout ("master"), Call.createBranch ("temp-" ++ toString w2w.now),
          Call.mergeSquash ("codesnap@task/x"), Call.commit (mergeMsgOf none t2x),
          Call.checkout ("master"), Call.mergeFF ("temp-" ++ toString w2w.now),
          Call.deleteBranch ("temp-" ++ toString w2w.now), Call.checkout t2x.base_branch]) :=
  claim_C2 none w2w t2x ("codesnap@task/x") ("master") ("") ("") ("") ("abc1234") ("")
    ("") ("") ("") true [] [] [] rfl rfl (by decide) rfl rfl rfl rfl (by simp)

/-! ### Claim C8: squash failure cleanup -/

/-- Counterexample world for C8: squash steps 1-3 succeed, the commit step
fails, and the compensating checkout of the task branch also fails. -/
def w8c : World :=
  ⟨⟨true, ["master", "dev", "codesnap@task/x"], some ("codesnap@task/x"), "", "h0"⟩,
   [(true, ""), (true, ""), (true, ""), (false, "commit failed"), (false, "cleanup fail")],
   [t2x], 5, []⟩

/-- Counterexample to claim C8 as stated: in `w8c` the squash procedure
fails at the commit step; the compensating checkout fails and is swallowed,
so the temporary-branch deletion is never attempted (no deleteBranch call in
the trace), the checked-out branch afterwards is the temporary branch
temp-5 — not the original task branch — and the temporary branch still
exists. -/
theorem claim_C8_cex :
    (squash_commits ("m") w8c).1 = (false, "commit failed") ∧
    (squash_commits ("m") w8c).2.git.current = some ("temp-5") ∧
    (squash_commits ("m") w8c).2.git.branches.contains ("temp-5") = true ∧
    (squash_commits ("m") w8c).2.trace.contains (Call.deleteBranch ("temp-5")) = false ∧
    ¬ some ("temp-5") = some ("codesnap@task/x") :=
  ⟨rfl, rfl, rfl, rfl, by decide⟩

/-- The common outcome of a squash run whose first failure happens at or
after the squash-merge step: the first error is the returned failure
message, the compensating checkout of the original task branch is attempted
right after the failing call, the temporary branch is deleted only when that
checkout succeeds (and the temporary branch exists), compensating-action
failures are swallowed, and when both compensating actions succeed the
checked-out branch is the original task branch and no temporary branch
remains.  `pre` is the list of git calls made up to and including the
failing step; `co` and `td` are the adapter outcomes of the compensating
checkout and deletion. -/
def C8Post (mg : String) (w : World) (cb e : String) (pre : List Call) (co td : Bool) : Prop :=
  (squash_commits mg w).1 = (false, e) ∧
  (squash_commits mg w).2.trace = w.trace ++ (pre ++ [Call.checkout cb]) ++
    (if co = true then [Call.deleteBranch ("temp-" ++ toString w.now)] else []) ∧
  (co = true → td = true →
    (squash_commits mg w).2.git.current = some cb ∧
    (squash_commits mg w).2.git.branches.contains ("temp-" ++ toString w.now) = false)

/-- Claim C8, amended: for every squash run whose first failure happens at
the squash-merge step, the commit step, the second checkout of the main
branch, the merge of the temporary branch, or the deletion of the temporary
branch, the procedure reports the first encountered error as the failure
message and swallows any failure of the compensating actions; it attempts to
check out the original task branch, and only when that checkout succeeds
does it attempt to delete the temporary branch (which exists at every one of
these failure points); when both compensating actions succeed, the
checked-out branch is the original task branch and no temporary branch
remains — the unconditional postcondition of the original claim holds only
when the compensating actions themselves succeed (see the
counterexample). -/
theorem claim_C8 (mg : String) (w : World) (cb mb e : String)
    (s1 s2 s3 s4 s5 s6 sc sd : String) (co td : Bool) (rest : List (Bool × String))
    (hrepo : w.git.isRepo = true)
    (hcur : w.git.current = some cb)
    (hcb : ¬ cb = "")
    (hmain : get_main_branch w = some mb)
    (htemp : w.git.branches.contains ("temp-" ++ toString w.now) = false) :
    (w.oracle = (true, s1) :: (true, s2) :: (false, e) ::
        (co, sc) :: (td, sd) :: rest →
      C8Post mg w cb e [Call.checkout mb, Call.createBranch ("temp-" ++ toString w.now),
        Call.mergeSquash cb] co td) ∧
    (w.oracle = (true, s1) :: (true, s2) :: (true, s3) :: (false, e) ::
        (co, sc) :: (td, sd) :: rest →
      C8Post mg w cb e [Call.checkout mb, Call.createBranch ("temp-" ++ toString w.now),
        Call.mergeSquash cb, Call.commit mg] co td) ∧
    (w.oracle = (true, s1) :: (true, s2) :: (true, s3) :: (true, s4) :: (false, e) ::
        (co, sc) :: (td, sd) :: rest →
      C8Post mg w cb e [Call.checkout mb, Call.createBranch ("temp-" ++ toString w.now),
        Call.mergeSquash cb, Call.commit mg, Call.checkout mb] co td) ∧
    (w.oracle = (true, s1) :: (true, s2) :: (true, s3) :: (true, s4) :: (true, s5) ::
        (false, e) :: (co, sc) :: (td, sd) :: rest →
      C8Post mg w cb e [Call.checkout mb, Call.createBranch ("temp-" ++ toString w.now),
        Call.mergeSquash cb, Call.commit mg, Call.checkout mb,
        Call.mergeFF ("temp-" ++ toString w.now)] co td) ∧
    (w.oracle = (true, s1) :: (true, s2) :: (true, s3) :: (true, s4) :: (true, s5) ::
        (true, s6) :: (false, e) :: (co, sc) :: (td, sd) :: rest →
      C8Post mg w cb e [Call.checkout mb, Call.createBranch ("temp-" ++ toString w.now),
        Call.mergeSquash cb, Call.commit mg, Call.checkout mb,
        Call.mergeFF ("temp-" ++ toString w.now),
        Call.deleteBranch ("temp-" ++ toString w.now)] co td) := by
  obtain ⟨⟨ir, br, cur, ch, hd⟩, orc, tsk, now, trc⟩ := w
  dsimp only at hrepo hcur hmain htemp ⊢
  subst hrepo
  subst hcur
  have hm : ¬ ("temp-" ++ toString now) ∈ br := by simpa using htemp
  refine ⟨?_, ?_, ?_, ?_, ?_⟩
  all_goals
    intro ho
    subst ho
    unfold C8Post squash_commits
    rw [hmain]
    cases co <;> cases td <;>
      simp [hcb, rawCheckout, rawCreateBranch, rawMergeSquash, rawCommit, rawMergeFF,
        rawDeleteBranch, logCall, takeOracle, get_current_branch, squashCleanup,
        htemp, hm, List.erase_append_right]

/-- C8 witness world: commit step fails, both compensating actions
succeed. -/
def w8w : World :=
  ⟨⟨true, ["master", "dev", "codesnap@task/x"], some ("codesnap@task/x"), "", "h0"⟩,
   [(true, ""), (true, ""), (true, ""), (false, "commit failed"), (true, ""), (true, "")],
   [t2x], 5, []⟩

/-- Witness for the amended C8 at a concrete input: a squash run on `w8w`
failing at the commit step with both compensating actions succeeding. -/
theorem claim_C8_witness :
    C8Post ("m") w8w ("codesnap@task/x") ("commit failed")
      [Call.checkout ("master"), Call.createBranch ("temp-" ++ toString w8w.now),
       Call.mergeSquash ("codesnap@task/x"), Call.commit ("m")] true true :=
  (claim_C8 ("m") w8w ("codesnap@task/x") ("master") ("commit failed") ("") ("") ("")
    ("") ("") ("") ("") ("") true true [] rfl rfl (by decide) rfl rfl).2.1 rfl

/-! ### Claim C6: failing create mutates nothing -/

/-- Claim C6: every failing create — not a repository, uncommitted changes
without force, unresolvable or nonexistent base branch, adapter-level
checkout or branch-creation failure — returns a failure result and leaves
both the set of branches and the registry unchanged: no task record is ever
appended for a branch that was not actually created. -/
theorem claim_C6 (n d : String) (f : Bool) (b : Option String) (w : World)
    {msg : String} {w' : World}
    (h : create_task n d f b w = Except.ok ((false, msg), w')) :
    w'.git.branches = w.git.branches ∧ w'.tasks = w.tasks := by
  rcases create_task_cases n d f b w h with ⟨-, ht, hb⟩ | ⟨hs, -, -⟩
  · exact ⟨hb, ht⟩
  · cases hs

/-- Witness for C6 at a concrete input: create on a clean repository whose
base-branch checkout fails consumes the oracle entry and the trace but
leaves branches and registry untouched. -/
theorem claim_C6_witness :
    ((⟨⟨true, ["master"], some ("master"), "", "h0"⟩, [], [], 0,
        [Call.checkout ("master")]⟩ : World).git.branches =
      (⟨⟨true, ["master"], some ("master"), "", "h0"⟩, [(false, "boom")], [], 0,
        []⟩ : World).git.branches) ∧
    ((⟨⟨true, ["master"], some ("master"), "", "h0"⟩, [], [], 0,
        [Call.checkout ("master")]⟩ : World).tasks =
      (⟨⟨true, ["master"], some ("master"), "", "h0"⟩, [(false, "boom")], [], 0,
        []⟩ : World).tasks) :=
  claim_C6 ("x") ("") false none
    ⟨⟨true, ["master"], some ("master"), "", "h0"⟩, [(false, "boom")], [], 0, []⟩ rfl

/-! ### Claims C7 and C10: prune -/

theorem rawDeleteBranch_none {b : String} {w w1 : World}
    (h : rawDeleteBranch b w = (none, w1)) :
    w1.git.branches = w.git.branches.erase b ∧ w1.git.isRepo = w.git.isRepo := by
  rcases ho : w.oracle with _ | ⟨⟨ok, msg⟩, rest⟩
  · simp [rawDeleteBranch, logCall, takeOracle, ho] at h
  · cases ok
    · simp [rawDeleteBranch, logCall, takeOracle, ho] at h
    · simp [rawDeleteBranch, logCall, takeOracle, ho] at h
      rw [← h]
      exact ⟨rfl, rfl⟩

theorem rawDeleteBranch_some {b : String} {w w1 : World} {e : String}
    (h : rawDeleteBranch b w = (some e, w1)) :
    w1.git.branches = w.git.branches ∧ w1.git.isRepo = w.git.isRepo := by
  rcases ho : w.oracle with _ | ⟨⟨ok, msg⟩, rest⟩
  · simp [rawDeleteBranch, logCall, takeOracle, ho] at h
    rw [← h.2]
    exact ⟨rfl, rfl⟩
  · cases ok
    · simp [rawDeleteBranch, logCall, takeOracle, ho] at h
      rw [← h.2]
      exact ⟨rfl, rfl⟩
    · simp [rawDeleteBranch, logCall, takeOracle, ho] at h

theorem delete_branch_true {b : String} {w w2 : World} {s : String}
    (h : delete_branch b w = ((true, s), w2)) :
    w2.git.branches = w.git.branches.erase b ∧ w2.git.isRepo = w.git.isRepo := by
  unfold delete_branch at h
  split at h
  · simp at h
  · split at h
    · rename_i w1 heq
      cases h
      exact rawDeleteBranch_none heq
    · simp at h

theorem delete_branch_false {b : String} {w w2 : World} {s : String}
    (h : delete_branch b w = ((false, s), w2)) :
    w2.git.branches = w.git.branches ∧ w2.git.isRepo = w.git.isRepo := by
  unfold delete_branch at h
  split at h
  · cases h
    exact ⟨rfl, rfl⟩
  · split at h
    · simp at h
    · rename_i e w1 heq
      cases h
      exact rawDeleteBranch_some heq

theorem pruneLoop_spec (days : Int) (mo : Bool) (cur : Option String) (now : Int) :
    ∀ (ts : List TaskRec) (w : World) (mkd : List TaskRec) (w1 : World),
      pruneLoop days mo cur now ts w = (mkd, w1) →
      w.git.isRepo = true →
      w.git.branches.Nodup →
      w1.git.isRepo = true ∧ w1.git.branches.Nodup ∧
      mkd.Sublist ts ∧
      (∀ b, b ∈ w1.git.branches → b ∈ w.git.branches) ∧
      (∀ b, b ∈ w.git.branches → b ∉ w1.git.branches → ∃ t, t ∈ mkd ∧ t.branch = b) ∧
      (∀ t, t ∈ mkd → someEqStr t.branch cur = false ∧
        daysBetween now t.last_activity ≥ days ∧ (mo = true → t.status = "Merged") ∧
        t.branch ∈ w.git.branches ∧ t.branch ∉ w1.git.branches) ∧
      ((ts.map (fun x => x.branch)).Nodup →
        ∀ t, t ∈ ts → t ∉ mkd → someEqStr t.branch cur = false →
          daysBetween now t.last_activity ≥ days → (mo = true → t.status = "Merged") →
          t.branch ∈ w.git.branches → t.branch ∈ w1.git.branches) := by
  intro ts
  induction ts with
  | nil =>
    intro w mkd w1 heq hrepo hnd
    unfold pruneLoop at heq
    obtain ⟨h1, h2⟩ := Prod.mk.inj heq
    subst h1
    subst h2
    refine ⟨hrepo, hnd, List.Sublist.refl _, fun b hb => hb, ?_, ?_, ?_⟩
    · intro b hb hnb
      exact absurd hb hnb
    · intro t ht
      cases ht
    · intro _ t ht
      cases ht
  | cons t ts ih =>
    intro w mkd w1 heq hrepo hnd
    unfold pruneLoop at heq
    split at heq
    · rename_i hsk
      obtain ⟨i1, i2, i3, i4, i5, i6, i7⟩ := ih w mkd w1 heq hrepo hnd
      refine ⟨i1, i2, i3.cons t, i4, i5, i6, ?_⟩
      intro hmapnd t' ht' hnm hg ha hs hm
      rcases List.mem_cons.mp ht' with
        rfl | ht2
      · rw [hsk] at hg
        cases hg
      · have htl : (ts.map (fun x => x.branch)).Nodup :=
          (List.nodup_cons.mp (by simpa using hmapnd)).2
        exact i7 htl t' ht2 hnm hg ha hs hm
    · rename_i hsk
      have hsk' : someEqStr t.branch cur = false := by simpa using hsk
      split at heq
      · rename_i hage
        split at heq
        · rename_i hstat
          obtain ⟨i1, i2, i3, i4, i5, i6, i7⟩ := ih w mkd w1 heq hrepo hnd
          refine ⟨i1, i2, i3.cons t, i4, i5, i6, ?_⟩
          intro hmapnd t' ht' hnm hg ha hs hm
          rcases List.mem_cons.mp ht' with rfl | ht2
          · exact absurd (hs hstat.1) hstat.2
          · have htl : (ts.map (fun x => x.branch)).Nodup :=
              (List.nodup_cons.mp (by simpa using hmapnd)).2
            exact i7 htl t' ht2 hnm hg ha hs hm
        · rename_i hstat
          dsimp only at heq
          split at heq
          · rename_i hvr
            have hvr' : (w.git.isRepo && w.git.branches.contains t.branch) = true := hvr
            have htbm : t.branch ∈ w.git.branches := by
              have h2 := hvr'
              rw [hrepo] at h2
              simpa using h2
            split at heq
            · rename_i s2 w2 heqd
              have hdel := delete_branch_true heqd
              have hdb : w2.git.branches = w.git.branches.erase t.branch := hdel.1
              have hdr : w2.git.isRepo = w.git.isRepo := hdel.2
              rcases hpr : pruneLoop days mo cur now ts w2 with ⟨m2, w2'⟩
              rw [hpr] at heq
              obtain ⟨hm1, hw1⟩ := Prod.mk.inj heq
              subst hm1
              subst hw1
              obtain ⟨i1, i2, i3, i4, i5, i6, i7⟩ :=
                ih w2 m2 w2' hpr (by rw [hdr]; exact hrepo) (by rw [hdb]; exact hnd.erase _)
              have htbnot2 : t.branch ∉ w2.git.branches := by
                rw [hdb]
                intro hx
                exact absurd rfl ((List.Nodup.mem_erase_iff hnd).mp hx).1
              refine ⟨i1, i2, i3.cons₂ t, ?_, ?_, ?_, ?_⟩
              · intro b hb
                have := i4 b hb
                rw [hdb] at this
                exact List.mem_of_mem_erase this
              · intro b hbw hb1
                by_cases hbt : b = t.branch
                · exact ⟨t, List.mem_cons_self _ _, hbt.symm⟩
                · have hb2 : b ∈ w2.git.branches := by
                    rw [hdb]
                    exact (List.Nodup.mem_erase_iff hnd).mpr ⟨hbt, hbw⟩
                  obtain ⟨t', ht', hb'⟩ := i5 b hb2 hb1
                  exact ⟨t', List.mem_cons_of_mem _ ht', hb'⟩
              · intro t' ht'
                rcases List.mem_cons.mp ht' with rfl | ht2
                · refine ⟨hsk', hage, ?_, htbm, ?_⟩
                  · intro hmo
                    by_contra hq
                    exact hstat ⟨hmo, hq⟩
                  · intro hx
                    exact htbnot2 (i4 _ hx)
                · obtain ⟨d1, d2, d3, d4, d5⟩ := i6 t' ht2
                  rw [hdb] at d4
                  exact ⟨d1, d2, d3, List.mem_of_mem_erase d4, d5⟩
              · intro hmapnd t' ht' hnm hg ha hs hm
                have hhead : t.branch ∉ ts.map (fun x => x.branch) :=
                  (List.nodup_cons.mp (by simpa using hmapnd)).1
                have htl : (ts.map (fun x => x.branch)).Nodup :=
                  (List.nodup_cons.mp (by simpa using hmapnd)).2
                rcases List.mem_cons.mp ht' with rfl | ht2
                · exact absurd (List.mem_cons_self _ _) hnm
                · have hne : t'.branch ≠ t.branch := by
                    intro hcontra
                    exact hhead (hcontra ▸ List.mem_map_of_mem _ ht2)
                  have hm2 : t'.branch ∈ w2.git.branches := by
                    rw [hdb]
                    exact (List.Nodup.mem_erase_iff hnd).mpr ⟨hne, hm⟩
                  have hnm2 : t' ∉ m2 := fun hx => hnm (List.mem_cons_of_mem _ hx)
                  exact i7 htl t' ht2 hnm2 hg ha hs hm2
            · rename_i s2 w2 heqd
              have hdel := delete_branch_false heqd
              have hdb : w2.git.branches = w.git.branches := hdel.1
              have hdr : w2.git.isRepo = w.git.isRepo := hdel.2
              obtain ⟨i1, i2, i3, i4, i5, i6, i7⟩ :=
                ih w2 mkd w1 heq (by rw [hdr]; exact hrepo) (by rw [hdb]; exact hnd)
              refine ⟨i1, i2, i3.cons t, ?_, ?_, ?_, ?_⟩
              · intro b hb
                have := i4 b hb
                rw [hdb] at this
                exact this
              · intro b hbw hb1
                obtain ⟨t', ht', hb'⟩ := i5 b (by rw [hdb]; exact hbw) hb1
                exact ⟨t', ht', hb'⟩
              · intro t' ht'
                obtain ⟨d1, d2, d3, d4, d5⟩ := i6 t' ht'
                rw [hdb] at d4
                exact ⟨d1, d2, d3, d4, d5⟩
              · intro hmapnd t' ht' hnm hg ha hs hm
                have hhead : t.branch ∉ ts.map (fun x => x.branch) :=
                  (List.nodup_cons.mp (by simpa using hmapnd)).1
                have htl : (ts.map (fun x => x.branch)).Nodup :=
                  (List.nodup_cons.mp (by simpa using hmapnd)).2
                rcases List.mem_cons.mp ht' with rfl | ht2
                · by_contra hb1
                  obtain ⟨t'', ht''m, hbr⟩ := i5 t'.branch (by rw [hdb]; exact hm) hb1
                  exact hhead (hbr ▸ List.mem_map_of_mem _ (i3.subset ht''m))
                · have hm2 : t'.branch ∈ w2.git.branches := by rw [hdb]; exact hm
                  exact i7 htl t' ht2 hnm hg ha hs hm2
          · rename_i hvr
            obtain ⟨i1, i2, i3, i4, i5, i6, i7⟩ :=
              ih (run_rev_parse_verify t.branch w).2 mkd w1 heq hrepo hnd
            refine ⟨i1, i2, i3.cons t, i4, i5, i6, ?_⟩
            intro hmapnd t' ht' hnm hg ha hs hm
            rcases List.mem_cons.mp ht' with rfl | ht2
            · exact absurd (show ((run_rev_parse_verify t'.branch w).1.1 = true) by
                show (w.git.isRepo && w.git.branches.contains t'.branch) = true
                rw [hrepo]
                simpa using hm) hvr
            · have htl : (ts.map (fun x => x.branch)).Nodup :=
                (List.nodup_cons.mp (by simpa using hmapnd)).2
              exact i7 htl t' ht2 hnm hg ha hs hm
      · rename_i hage
        obtain ⟨i1, i2, i3, i4, i5, i6, i7⟩ := ih w mkd w1 heq hrepo hnd
        refine ⟨i1, i2, i3.cons t, i4, i5, i6, ?_⟩
        intro hmapnd t' ht' hnm hg ha hs hm
        rcases List.mem_cons.mp ht' with rfl | ht2
        · exact absurd ha hage
        · have htl : (ts.map (fun x => x.branch)).Nodup :=
            (List.nodup_cons.mp (by simpa using hmapnd)).2
          exact i7 htl t' ht2 hnm hg ha hs hm

theorem filter_not_contains_length (m ts : List TaskRec) (hsub : m.Sublist ts)
    (hnd : ts.Nodup) :
    (ts.filter (fun x => ¬ m.contains x)).length + m.length = ts.length := by
  induction hsub with
  | slnil => rfl
  | cons a hsub ih =>
    rename_i m' ts'
    have hnotmem : a ∉ ts' := (List.nodup_cons.mp hnd).1
    have hnotin : ¬ m'.contains a = true := by
      intro hc
      exact hnotmem (hsub.subset (by simpa using hc))
    have ih' := ih (List.nodup_cons.mp hnd).2
    simp only [List.filter_cons]
    rw [if_pos (by simpa using hnotin)]
    simp only [List.length_cons]
    omega
  | cons₂ a hsub ih =>
    rename_i m' ts'
    have hnotmem : a ∉ ts' := (List.nodup_cons.mp hnd).1
    have ih' := ih (List.nodup_cons.mp hnd).2
    simp only [List.filter_cons]
    rw [if_neg (by simp)]
    have hcongr : ts'.filter (fun x => ¬ (a :: m').contains x) =
        ts'.filter (fun x => ¬ m'.contains x) := by
      apply List.filter_congr
      intro x hx
      have hxa : ¬ x = a := fun hc => hnotmem (hc ▸ hx)
      simp [List.contains_cons, hxa]
    rw [hcongr]
    simp only [List.length_cons]
    omega

/-- Claim C10: a registry record whose branch no longer exists in the
repository is never removed by prune, regardless of its age or status:
removal is gated on the branch existing (and its deletion succeeding), so
such orphan records survive every prune call. -/
theorem claim_C10 (days : Int) (mo : Bool) (w : World) {n : Nat} {w' : World}
    (h : prune_tasks days mo w = Except.ok (n, w'))
    (hnd : w.git.branches.Nodup) :
    ∀ t, t ∈ w.tasks → t.branch ∉ w.git.branches → t ∈ w'.tasks := by
  unfold prune_tasks at h
  split at h
  · obtain ⟨-, h2⟩ := ok_pair_inj h
    subst h2
    exact fun t ht _ => ht
  · rename_i hrepo
    have hrepo' : w.git.isRepo = true := by
      simpa [is_git_repo] using hrepo
    dsimp only at h
    rcases hpr : pruneLoop days mo (get_current_branch w) w.now w.tasks w with ⟨mkd, w1⟩
    rw [hpr] at h
    obtain ⟨-, -, -, -, -, i6, -⟩ :=
      pruneLoop_spec days mo (get_current_branch w) w.now w.tasks w mkd w1 hpr hrepo' hnd
    have hts : w1.tasks = w.tasks := by
      have := (pruneLoop_reg days mo (get_current_branch w) w.now w.tasks w).1
      rw [hpr] at this
      exact this
    split at h
    · obtain ⟨-, h2⟩ := ok_pair_inj h
      subst h2
      intro t ht hnb
      rw [hts]
      exact ht
    · obtain ⟨-, h2⟩ := ok_pair_inj h
      subst h2
      intro t ht hnb
      show t ∈ w1.tasks.filter _
      rw [hts]
      refine List.mem_filter.mpr ⟨ht, ?_⟩
      simp only [decide_not, Bool.not_eq_true']
      by_contra hx
      have hx' : mkd.contains t = true := by simpa using hx
      exact hnb ((i6 t (by simpa using hx')).2.2.2.1)

/-- C10 witness world: one record, sixty days old and Merged, whose branch
does not exist. -/
def w10w : World :=
  ⟨⟨true, ["master"], some ("master"), "", "h0"⟩, [],
   [⟨1, "c", "codesnap@task/c", "master", "", "Merged", 0, 0, 0⟩], 5184000, []⟩

/-- Witness for C10 at a concrete input: the orphan record survives
prune(30). -/
theorem claim_C10_witness :
    (⟨1, "c", "codesnap@task/c", "master", "", "Merged", 0, 0, 0⟩ : TaskRec) ∈ w10w.tasks :=
  claim_C10 30 false w10w rfl (by decide) _ (by decide) (by decide)

/-- Claim C7: for every prune(days, merged_only) call on a repository whose
branch list has no duplicates and whose registry has pairwise-distinct
branch values, a record of the registry is removed exactly when it is not
the record of the currently checked-out branch, its last_activity is at
least days old, its status is Merged whenever merged_only is set, its branch
existed, and its branch was actually deleted by the run (it is gone from the
final branch list); the returned count equals the number of removed records,
and the current-branch record is never deleted regardless of age. -/
theorem claim_C7 (days : Int) (mo : Bool) (w : World) {n : Nat} {w' : World}
    (h : prune_tasks days mo w = Except.ok (n, w'))
    (hnd : w.git.branches.Nodup)
    (hmap : (w.tasks.map (fun x => x.branch)).Nodup) :
    (∀ t, t ∈ w.tasks → (¬ t ∈ w'.tasks ↔
      (someEqStr t.branch (get_current_branch w) = false ∧
       daysBetween w.now t.last_activity ≥ days ∧
       (mo = true → t.status = "Merged") ∧
       t.branch ∈ w.git.branches ∧ t.branch ∉ w'.git.branches))) ∧
    w'.tasks.length + n = w.tasks.length ∧
    (∀ t, t ∈ w.tasks → someEqStr t.branch (get_current_branch w) = true →
      t ∈ w'.tasks) := by
  have htasksnd : w.tasks.Nodup := List.Nodup.of_map _ hmap
  unfold prune_tasks at h
  split at h
  · rename_i hrepo
    obtain ⟨hn, h2⟩ := ok_pair_inj h
    subst h2
    subst hn
    refine ⟨?_, rfl, fun t ht _ => ht⟩
    intro t ht
    constructor
    · intro hnot
      exact absurd ht hnot
    · rintro ⟨-, -, -, hmem, hnmem⟩
      exact absurd hmem hnmem
  · rename_i hrepo
    have hrepo' : w.git.isRepo = true := by
      simpa [is_git_repo] using hrepo
    dsimp only at h
    rcases hpr : pruneLoop days mo (get_current_branch w) w.now w.tasks w with ⟨mkd, w1⟩
    rw [hpr] at h
    obtain ⟨-, -, i3, i4, -, i6, i7⟩ :=
      pruneLoop_spec days mo (get_current_branch w) w.now w.tasks w mkd w1 hpr hrepo' hnd
    have hts : w1.tasks = w.tasks := by
      have := (pruneLoop_reg days mo (get_current_branch w) w.now w.tasks w).1
      rw [hpr] at this
      exact this
    split at h
    · rename_i hempty
      subst hempty
      obtain ⟨hn, h2⟩ := ok_pair_inj h
      subst h2
      subst hn
      refine ⟨?_, by simp [hts], ?_⟩
      · intro t ht
        constructor
        · intro hnot
          rw [hts] at hnot
          exact absurd ht hnot
        · rintro ⟨hg, ha, hs, hmem, hnmem⟩
          have := i7 hmap t ht (by intro hx; cases hx) hg ha hs hmem
          exact absurd this hnmem
      · intro t ht _
        rw [hts]
        exact ht
    · rename_i hne
      obtain ⟨hn, h2⟩ := ok_pair_inj h
      subst h2
      subst hn
      refine ⟨?_, ?_, ?_⟩
      · intro t ht
        have hmemfilter : t ∈ (w1.tasks.filter (fun x => ¬ mkd.contains x)) ↔ ¬ t ∈ mkd := by
          rw [hts]
          constructor
          · intro hx
            have := (List.mem_filter.mp hx).2
            simpa using this
          · intro hx
            exact List.mem_filter.mpr ⟨ht, by simpa using hx⟩
        constructor
        · intro hnot
          have hmk : t ∈ mkd := by
            by_contra hq
            exact hnot (hmemfilter.mpr hq)
          obtain ⟨d1, d2, d3, d4, d5⟩ := i6 t hmk
          exact ⟨d1, d2, d3, d4, d5⟩
        · rintro ⟨hg, ha, hs, hmem, hnmem⟩
          intro hin
          have hnotmk : ¬ t ∈ mkd := hmemfilter.mp hin
          have := i7 hmap t ht hnotmk hg ha hs hmem
          exact absurd this hnmem
      · show (w1.tasks.filter (fun x => ¬ mkd.contains x)).length + mkd.length = w.tasks.length
        rw [hts]
        exact filter_not_contains_length mkd w.tasks i3 htasksnd
      · intro t ht hcur
        show t ∈ w1.tasks.filter (fun x => ¬ mkd.contains x)
        rw [hts]
        refine List.mem_filter.mpr ⟨ht, ?_⟩
        have : ¬ t ∈ mkd := by
          intro hx
          have := (i6 t hx).1
          rw [hcur] at this
          cases this
        simpa using this

/-- C7 witness world: an old merged record whose branch exists (deletion
will succeed) and the record of the checked-out branch, also old. -/
def w7w : World :=
  ⟨⟨true, ["master", "codesnap@task/a"], some ("master"), "", "h0"⟩, [(true, "")],
   [⟨1, "a", "codesnap@task/a", "master", "", "Merged", 0, 0, 0⟩,
    ⟨2, "f", "master", "master", "", "Active", 0, 0, 0⟩], 5184000, []⟩

/-- Witness for C7 at a concrete input: the current-branch record survives
prune(30, merged_only) even though it is old. -/
theorem claim_C7_witness :
    (⟨2, "f", "master", "master", "", "Active", 0, 0, 0⟩ : TaskRec) ∈
      (⟨⟨true, ["master"], some ("master"), "", "h0"⟩, [],
        [⟨2, "f", "master", "master", "", "Active", 0, 0, 0⟩], 5184000,
        [Call.deleteBranch ("codesnap@task/a")]⟩ : World).tasks :=
  (claim_C7 30 true w7w rfl (by decide) (by decide)).2.2 _ (by decide) (by decide)
